import Mathlib

/-!
# TRI-STACK card game engine: a shallow embedding

A verification development for the TRI-STACK turn-based card game
(React/TypeScript).  The pure logic layer (`services/gameLogic.ts`) and the
orchestrator (`App.tsx`) are embedded as executable Lean definitions.

JavaScript arrays that are consumed with `shift()` are modelled as lists with
the next element at the head (the draw pile `deck`); arrays grown with
`push(...)` and consumed with `pop()` are modelled as lists whose *last*
element is the JS "top" (the discard pile `openDeck`).  `Math.random()` is
modelled by an oracle `r : Nat → Nat`: the source computes
`Math.floor(Math.random() * (i + 1))`, a uniform integer in `[0, i]`, which we
render as `r i % (i + 1)`.  A React handler that returns early without calling
`setGameState` leaves the component state untouched; such handlers are
modelled as functions into `Option GameState`, with `none` on every early
return path.
-/

namespace TriStack

/-- Modelled from the spec: the four symbolic suit values (`SUITS` lives in the
missing `constants.ts`; the spec fixes only that there are 4 symbolic suits). -/
inductive Suit where
  | spades | hearts | diamonds | clubs
deriving DecidableEq, Repr

/-- Modelled from the spec: the thirteen symbolic rank values (`RANKS` lives in
the missing `constants.ts`). -/
inductive Rank where
  | ace | two | three | four | five | six | seven | eight | nine | ten
  | jack | queen | king
deriving DecidableEq, Repr

/-- Modelled from the spec: `RANK_VALUES` (missing `constants.ts`).  The spec
and the in-app rules fix the table: numeral ranks contribute their numeral,
the picture ranks J/Q/K are worth 10, the Ace is worth 1. -/
def Rank.value : Rank → Nat
  | .ace => 1 | .two => 2 | .three => 3 | .four => 4 | .five => 5
  | .six => 6 | .seven => 7 | .eight => 8 | .nine => 9 | .ten => 10
  | .jack => 10 | .queen => 10 | .king => 10

/-- Modelled from the spec: the display string of a rank, used in card ids. -/
def Rank.str : Rank → String
  | .ace => "A" | .two => "2" | .three => "3" | .four => "4" | .five => "5"
  | .six => "6" | .seven => "7" | .eight => "8" | .nine => "9" | .ten => "10"
  | .jack => "J" | .queen => "Q" | .king => "K"

/-- Modelled from the spec: the display string of a suit, used in card ids. -/
def Suit.str : Suit → String
  | .spades => "S" | .hearts => "H" | .diamonds => "D" | .clubs => "C"

/-- `CardData` from `types.ts`: id, suit, rank and the numeric face value
stored on the card at deck-construction time. -/
structure CardData where
  id : String
  suit : Suit
  rank : Rank
  value : Nat
deriving DecidableEq, Repr

/-- `SUITS` iteration order in `createDeck` (outer loop). -/
def SUITS : List Suit := [.spades, .hearts, .diamonds, .clubs]

/-- `RANKS` iteration order in `createDeck` (inner loop). -/
def RANKS : List Rank :=
  [.ace, .two, .three, .four, .five, .six, .seven, .eight, .nine, .ten,
   .jack, .queen, .king]

/-- The 52 cards in the order `createDeck` pushes them, before shuffling:
for each suit, for each rank, a card with id `card-<counter>-<rank>-<suit>`. -/
def standardDeck : List CardData :=
  ((SUITS.map (fun s => RANKS.map (fun rk => (s, rk)))).flatten).enum.map
    (fun p =>
      { id := "card-" ++ toString p.1 ++ "-" ++ p.2.2.str ++ "-" ++ p.2.1.str,
        suit := p.2.1, rank := p.2.2, value := p.2.2.value })

/-- Swap the elements at positions `i` and `j`; the JS destructuring swap
`[a[i], a[j]] = [a[j], a[i]]` used by `shuffleDeck`. -/
def listSwap (l : List α) (i j : Nat) : List α :=
  match l.get? i, l.get? j with
  | some a, some b => (l.set i b).set j a
  | _, _ => l

/-- The Fisher–Yates loop of `shuffleDeck`, counting `i` down; at each step
the source draws `j = Math.floor(Math.random() * (i + 1))`, i.e. `r i % (i+1)`. -/
def fisherYates (r : Nat → Nat) : Nat → List α → List α
  | 0, l => l
  | i + 1, l => fisherYates r i (listSwap l (i + 1) (r (i + 1) % (i + 2)))

/-- `shuffleDeck` from `gameLogic.ts`: copy the input and run Fisher–Yates
from index `length - 1` down to `1`. -/
def shuffleDeck (r : Nat → Nat) (deck : List α) : List α :=
  fisherYates r (deck.length - 1) deck

/-- `createDeck` from `gameLogic.ts`: build the 52-card deck and shuffle it. -/
def createDeck (r : Nat → Nat) : List CardData :=
  shuffleDeck r standardDeck

/-- `calculateHandValue` from `gameLogic.ts`: sum of card values; when a joker
card is given, any card sharing the joker's rank contributes 0. -/
def calculateHandValue (hand : List CardData) (joker : Option CardData) : Nat :=
  match joker with
  | none => hand.foldl (fun sum c => sum + c.value) 0
  | some jk => hand.foldl (fun sum c => if c.rank = jk.rank then sum + 0 else sum + c.value) 0

/-- `Math.min(...)` over a list of hand values as `getRoundScores` uses it
(the list is always nonempty there; the `[]` case is unreachable). -/
def jsMinList (l : List Nat) : Nat :=
  match l with
  | [] => 0
  | v :: vs => vs.foldl Nat.min v

/-- `Player` from `types.ts`.  `wasCaller?` is an optional boolean in the
source; a missing field reads as falsy, so it is a plain `Bool` here. -/
structure Player where
  id : Int
  name : String
  isBot : Bool
  hand : List CardData
  score : Nat
  totalScore : Nat
  lastAction : String
  wasCaller : Bool
deriving DecidableEq, Repr

/-- `getRoundScores` from `gameLogic.ts`: per-seat `(playerId, roundScore)`
pairs.  Every seat scores its own hand value except the caller, who scores
0 / 25 / 50 according to the unique-lowest / tied-lowest / not-lowest tiers. -/
def getRoundScores (players : List Player) (callerIndex : Nat)
    (joker : Option CardData) : List (Int × Nat) :=
  let handValues := players.map (fun p => (p.id, calculateHandValue p.hand joker))
  let callerId : Option Int := (players.get? callerIndex).map (·.id)
  let callerValue : Nat :=
    match callerId with
    | some cid => ((handValues.find? (fun h => h.1 = cid)).map (·.2)).getD 0
    | none => 0
  let lowestValue := jsMinList (handValues.map (·.2))
  let winnersCount := (handValues.map (·.2)).count lowestValue
  players.map (fun p =>
    let handVal := calculateHandValue p.hand joker
    let roundScore :=
      if callerId = some p.id then
        if callerValue = lowestValue ∧ winnersCount = 1 then 0
        else if callerValue = lowestValue ∧ 1 < winnersCount then 25
        else 50
      else handVal
    (p.id, roundScore))

/-- `BotAction` from `types.ts`. -/
inductive BotAction where
  | show
  | toss (cardIds : List String)
  | dis (cardIds : List String)
deriving DecidableEq, Repr

/-- The ranks whose display strings are array-index-like JS object keys
("2" … "10"); a JS `for … in` loop visits these first, in ascending
numeric order, before the remaining string keys in insertion order. -/
def jsNumericRanks : List Rank :=
  [.two, .three, .four, .five, .six, .seven, .eight, .nine, .ten]

/-- The distinct elements of a list in first-occurrence order (the key set of
the JS object `rankCounts`, which gains a key the first time a rank is seen). -/
def firstOccurrences : List Rank → List Rank
  | [] => []
  | rk :: rest => rk :: (firstOccurrences rest).filter (fun x => !(x = rk : Bool))

/-- The key order in which `decideBotAction`'s `for (const rank in rankCounts)`
loop visits the ranks present in a hand: integer-like keys ("2" … "10")
ascending first, then the remaining ranks in first-occurrence order. -/
def rankKeysOrder (hand : List CardData) : List Rank :=
  let present := firstOccurrences (hand.map (·.rank))
  jsNumericRanks.filter (fun rk => present.contains rk) ++
    present.filter (fun rk => !jsNumericRanks.contains rk)

/-- The wildcard-aware value `decideBotAction` assigns a single card when
choosing what to discard: a joker-rank card counts 0.  (`Int` because the
source fold starts from `highestVal = -1`.) -/
def botCardValue (joker : Option CardData) (c : CardData) : Int :=
  match joker with
  | some jk => if c.rank = jk.rank then 0 else (c.value : Int)
  | none => (c.value : Int)

/-- One step of `decideBotAction`'s highest-card scan: keep the incumbent
unless the next card's wildcard-aware value is strictly higher. -/
def botFoldStep (joker : Option CardData) (acc : CardData × Int)
    (c : CardData) : CardData × Int :=
  if acc.2 < botCardValue joker c then (c, botCardValue joker c) else acc

/-- The condition under which `decideBotAction`'s pair scan stops at a rank
group: at least two cards of the rank, and (when a joker exists) the rank is
not the joker's (`continue` skips joker pairs). -/
def tossPred (joker : Option CardData) (g : Rank × List CardData) : Bool :=
  2 ≤ g.2.length &&
    !(match joker with
      | some jk => decide (g.1 = jk.rank)
      | none => false)

/-- `decideBotAction` from `gameLogic.ts`: toss the first non-joker pair found
(unless already tossed this turn), else show at value ≤ 5, else discard the
first highest-value card (jokers valued 0). -/
def decideBotAction (player : Player) (joker : Option CardData)
    (tossedThisTurn : Bool) : BotAction :=
  let hand := player.hand
  let currentScore := calculateHandValue hand joker
  let tossCandidate : Option BotAction :=
    if tossedThisTurn then none
    else
      let groups := (rankKeysOrder hand).map (fun rk => (rk, hand.filter (·.rank = rk)))
      match groups.find? (tossPred joker) with
      | some g =>
        match g.2 with
        | a :: b :: _ => some (.toss [a.id, b.id])
        | _ => none
      | none => none
  match tossCandidate with
  | some act => act
  | none =>
    if currentScore ≤ 5 then .show
    else
      match hand with
      | [] => .dis []
      | h0 :: _ =>
        let best := hand.foldl (botFoldStep joker) (h0, -1)
        .dis [best.1.id]

/-- `GamePhase` from `types.ts`. -/
inductive GamePhase where
  | SETUP | PLAYER_TURN_START | PLAYER_TOSSING_DRAW | PLAYER_DRAW
  | ROUND_END | MATCH_END
deriving DecidableEq, Repr

/-- `GameMode` from `types.ts` (the `null` mode is `Option.none` in
`GameState`). -/
inductive GameMode where
  | SINGLE_PLAYER | MULTIPLAYER | ONLINE_HOST | ONLINE_CLIENT
deriving DecidableEq, Repr

/-- `GameState` from `types.ts` (the fields the engine reads or writes;
`winner` and `playerNames` are display-only and never consulted by any
transition, so they are omitted).  `deck`'s head is the next draw
(`shift()`); `openDeck`'s *last* element is the visible top (`push`/`pop`). -/
structure GameState where
  gameMode : Option GameMode
  deck : List CardData
  openDeck : List CardData
  players : List Player
  currentPlayerIndex : Nat
  roundJoker : Option CardData
  roundNumber : Nat
  totalRounds : Nat
  phase : GamePhase
  turnLog : List String
  lastDiscardedId : Option String
  tossedThisTurn : Bool
  pendingDiscard : Option CardData
  pendingToss : List CardData
deriving DecidableEq, Repr

/-- The fallback object `App.tsx` substitutes when
`players[currentPlayerIndex]` is `undefined`. -/
def dummyPlayer : Player :=
  { id := -1, name := "Loading", isBot := false, hand := [], score := 0,
    totalScore := 0, lastAction := "", wasCaller := false }

/-- `currentPlayer` from `App.tsx`: the active seat, with the robust
fallback for an out-of-range index. -/
def currentPlayer (s : GameState) : Player :=
  (s.players.get? s.currentPlayerIndex).getD dummyPlayer

/-- The per-participant UI context a submission is made from: the local
online seat id (`myOnlineId`), the hotseat overlay flag (`isTransitioning`),
the card selection (`selectedCardIds`) and the round selector
(`selectedTotalRounds`). -/
structure LocalCtx where
  myOnlineId : Option Int
  isTransitioning : Bool
  selected : List String
  selectedTotalRounds : Nat

/-- `isMyTurnOnline` from `App.tsx`: in the online modes the local
participant must be the active seat; in local modes always true. -/
def isMyTurnOnline (ctx : LocalCtx) (s : GameState) : Bool :=
  match s.gameMode with
  | some .ONLINE_HOST | some .ONLINE_CLIENT =>
      ctx.myOnlineId == some (currentPlayer s).id
  | _ => true

/-- `isPlayerTurn` from `App.tsx`: the condition under which the UI lets the
local human act at all. -/
def isPlayerTurn (ctx : LocalCtx) (s : GameState) : Bool :=
  !ctx.isTransitioning && !(currentPlayer s).isBot &&
    !(s.phase == .ROUND_END) && !(s.phase == .MATCH_END) &&
    isMyTurnOnline ctx s

/-- The `pendingDiscard` buffer as a list (0 or 1 card). -/
def pendingDiscardList (s : GameState) : List CardData :=
  match s.pendingDiscard with
  | some c => [c]
  | none => []

/-- `finishTurn` from `App.tsx`: install the new hand and piles, advance the
active seat circularly, clear the per-turn markers and return to
`PLAYER_TURN_START`. -/
def finishTurn (playerId : Int) (newHand : List CardData)
    (openDeck deck : List CardData) (actionLog : String)
    (s : GameState) : GameState :=
  { s with
    players := s.players.map (fun pl =>
      if pl.id = playerId then { pl with hand := newHand, lastAction := "Ended Turn" }
      else pl),
    openDeck := openDeck,
    deck := deck,
    currentPlayerIndex := (s.currentPlayerIndex + 1) % s.players.length,
    phase := .PLAYER_TURN_START,
    turnLog := s.turnLog ++ [actionLog],
    lastDiscardedId := none,
    tossedThisTurn := false,
    pendingDiscard := none,
    pendingToss := [] }

/-- `handleShow` from `App.tsx`: score the round, accumulate total scores,
flag the active seat as the caller and enter `ROUND_END`. -/
def handleShow (s : GameState) : GameState :=
  let results := getRoundScores s.players s.currentPlayerIndex s.roundJoker
  let cp := currentPlayer s
  { s with
    players := s.players.map (fun p =>
      let rs := ((results.find? (fun r => r.1 = p.id)).map (·.2)).getD 0
      { p with
        score := rs,
        totalScore := p.totalScore + rs,
        lastAction := if p.id = cp.id then "CALLED SHOW!" else "Revealed",
        wasCaller := decide (p.id = cp.id) }),
    phase := .ROUND_END,
    turnLog := s.turnLog ++ [cp.name ++ " called SHOW! Round Ended."] }

/-- `handleToss` from `App.tsx`.  Early returns (wrong selection size, second
toss, rank mismatch — and the source's crash when a selected id is not in the
hand) are `none`; otherwise the pair moves to `pendingToss` and the phase
becomes `PLAYER_TOSSING_DRAW`. -/
def handleToss (sel : List String) (s : GameState) : Option GameState :=
  if sel.length ≠ 2 then none
  else if s.tossedThisTurn then none
  else
    let p := currentPlayer s
    let cards := p.hand.filter (fun c => sel.contains c.id)
    match cards.get? 0, cards.get? 1 with
    | some c0, some c1 =>
      if c0.rank ≠ c1.rank then none
      else some { s with
        players := s.players.map (fun pl =>
          if pl.id = p.id then
            { pl with hand := p.hand.filter (fun c => !sel.contains c.id),
                      lastAction := "Tossed " ++ c0.rank.str ++ "s" }
          else pl),
        pendingToss := cards,
        phase := .PLAYER_TOSSING_DRAW,
        tossedThisTurn := true,
        turnLog := s.turnLog ++ [p.name ++ " tossed a pair of " ++ c0.rank.str ++ "s"] }
    | _, _ => none

/-- `handleDiscard` from `App.tsx`: move the selected card to
`pendingDiscard`, record the no-reclaim marker and enter `PLAYER_DRAW`. -/
def handleDiscard (sel : List String) (s : GameState) : Option GameState :=
  if sel.length ≠ 1 then none
  else
    let p := currentPlayer s
    match sel.get? 0 with
    | none => none
    | some sel0 =>
      match p.hand.find? (fun c => c.id = sel0) with
      | none => none
      | some cardToDiscard =>
        some { s with
          players := s.players.map (fun pl =>
            if pl.id = p.id then
              { pl with hand := p.hand.filter (fun c => !(c.id = sel0 : Bool)),
                        lastAction := "Discarded " ++ cardToDiscard.rank.str }
            else pl),
          pendingDiscard := some cardToDiscard,
          lastDiscardedId := some cardToDiscard.id,
          phase := .PLAYER_DRAW,
          turnLog := s.turnLog ++ [p.name ++ " discarded " ++ cardToDiscard.rank.str] }

/-- The two arguments of `handleDraw`. -/
inductive DrawSource where
  | DECK | OPEN
deriving DecidableEq, Repr

/-- `handleDraw` from `App.tsx`.  `OPEN`: reject reclaiming the just-discarded
top in `PLAYER_DRAW`, else pop the top.  `DECK`: recycle the discard pile
(keep its top, shuffle the rest into a fresh draw pile) when the deck is
empty, or force `handleShow` when recycling is impossible (deadlock);
otherwise shift the deck head.  The drawn card joins the hand, the pending
buffers are committed to the discard pile, and `finishTurn` runs. -/
def handleDraw (r : Nat → Nat) (source : DrawSource) (s : GameState) :
    Option GameState :=
  let p := currentPlayer s
  match source with
  | .OPEN =>
    let reclaim : Bool :=
      s.phase == .PLAYER_DRAW &&
        (match s.openDeck.getLast? with
         | some topCard => s.lastDiscardedId == some topCard.id
         | none => false)
    if reclaim then none
    else
      match s.openDeck.getLast? with
      | none => none
      | some drawn =>
        let newOpenDeck := s.openDeck.dropLast ++ s.pendingToss ++ pendingDiscardList s
        some (finishTurn p.id (p.hand ++ [drawn]) newOpenDeck s.deck
          "Drew from Open Pile" s)
  | .DECK =>
    match s.deck with
    | [] =>
      if 1 < s.openDeck.length then
        match s.openDeck.getLast? with
        | none => none
        | some topCard =>
          match shuffleDeck r s.openDeck.dropLast with
          | [] => none
          | drawn :: deckRest =>
            let newOpenDeck := [topCard] ++ s.pendingToss ++ pendingDiscardList s
            some (finishTurn p.id (p.hand ++ [drawn]) newOpenDeck deckRest
              "Drew from Deck" s)
      else
        some (handleShow s)
    | drawn :: deckRest =>
      let newOpenDeck := s.openDeck ++ s.pendingToss ++ pendingDiscardList s
      some (finishTurn p.id (p.hand ++ [drawn]) newOpenDeck deckRest
        "Drew from Deck" s)

/-- The dealing loop of `startRound`: `players.forEach(p => p.hand =
newDeck.splice(0, 3))`. -/
def dealHands : List Player → List CardData → List Player × List CardData
  | [], d => ([], d)
  | p :: ps, d =>
    let rest := dealHands ps (d.drop 3)
    ({ p with hand := d.take 3 } :: rest.1, rest.2)

/-- A freshly constructed seat (`startRound`'s local-game player literals and
`startOnlineGame`'s lobby mapping). -/
def mkPlayer (i : Nat) (nm : String) (bot : Bool) : Player :=
  { id := Int.ofNat i, name := nm, isBot := bot, hand := [], score := 0,
    totalScore := 0, lastAction := "Waiting...", wasCaller := false }

/-- The fresh rosters `startRound` builds when no existing players are passed:
four seats (one human, three bots) in single player, `count` human seats in
local multiplayer, and none otherwise. -/
def freshPlayers (mode : Option GameMode) (count : Nat) (names : List String) :
    List Player :=
  match mode with
  | some .SINGLE_PLAYER =>
    [mkPlayer 0 (names.getD 0 "You") false,
     mkPlayer 1 (names.getD 1 "Bot Alpha") true,
     mkPlayer 2 (names.getD 2 "Bot Beta") true,
     mkPlayer 3 (names.getD 3 "Bot Gamma") true]
  | some .MULTIPLAYER =>
    let n := if 0 < count then count else 4
    (List.range n).map (fun i => mkPlayer i (names.getD i "Player") false)
  | _ => []

/-- `startRound` from `App.tsx`: fresh shuffled deck, joker drawn at a random
index of the full deck, roster reset (previous round's caller starts, seat 0
otherwise), three cards dealt to every seat, phase `PLAYER_TURN_START`.
`j` is the `Math.random()` draw behind `jokerIndex`. -/
def startRound (r : Nat → Nat) (j : Nat) (roundNum : Nat)
    (existingPlayers : Option (List Player)) (mode : Option GameMode)
    (setupCount : Nat) (names : List String) (selectedTotalRounds : Nat)
    (s : GameState) : GameState :=
  let newDeck := createDeck r
  let roundJoker := newDeck.get? (j % newDeck.length)
  let basePlayers : List Player × Nat :=
    match existingPlayers with
    | some ps =>
      let caller := ps.find? (·.wasCaller)
      let startIdx := match caller with
        | some c => c.id.toNat
        | none => 0
      (ps.map (fun p =>
        { p with hand := [], score := 0, totalScore := p.totalScore,
                 lastAction := "Waiting...", wasCaller := false }), startIdx)
    | none => (freshPlayers mode setupCount names, 0)
  let dealt := dealHands basePlayers.1 newDeck
  { s with
    deck := dealt.2,
    openDeck := [],
    players := dealt.1,
    currentPlayerIndex := basePlayers.2,
    roundJoker := roundJoker,
    roundNumber := roundNum,
    totalRounds := selectedTotalRounds,
    phase := .PLAYER_TURN_START,
    turnLog := ["Round " ++ toString roundNum ++ " started!"],
    lastDiscardedId := none,
    tossedThisTurn := false,
    pendingDiscard := none,
    pendingToss := [],
    gameMode := match mode with | some m => some m | none => s.gameMode }

/-- `nextRound` from `App.tsx`: a no-op once the round counter has reached the
configured total (the early `return`), otherwise start the next round with
the current roster. -/
def nextRound (r : Nat → Nat) (j : Nat) (ctx : LocalCtx) (s : GameState) :
    Option GameState :=
  if s.totalRounds ≤ s.roundNumber then none
  else some (startRound r j (s.roundNumber + 1) (some s.players) s.gameMode
    0 [] ctx.selectedTotalRounds s)

/-! ### The engine-facing submission surface

`App.tsx` dispatches each handler from a render site that is itself gated:
the TOSS / DISCARD buttons and the SHOW button exist only while
`isPlayerTurn && phase === PLAYER_TURN_START` (SHOW additionally only while
`!tossedThisTurn`, TOSS only while two cards are selected and
`!tossedThisTurn`, DISCARD only while one card is selected); the two piles
are clickable only while `isPlayerTurn && (phase === PLAYER_DRAW || phase ===
PLAYER_TOSSING_DRAW)` and the pile is nonempty; the Next-Round button exists
only in the `ROUND_END` modal and, online, only for seat 0.  The `submit*`
functions below are those dispatch sites composed with their handlers. -/

/-- The TOSS button: render/enabled guard composed with `handleToss`. -/
def submitToss (ctx : LocalCtx) (s : GameState) : Option GameState :=
  if isPlayerTurn ctx s && s.phase == .PLAYER_TURN_START &&
      ctx.selected.length == 2 && !s.tossedThisTurn then
    handleToss ctx.selected s
  else none

/-- The DISCARD button: render/enabled guard composed with `handleDiscard`. -/
def submitDiscard (ctx : LocalCtx) (s : GameState) : Option GameState :=
  if isPlayerTurn ctx s && s.phase == .PLAYER_TURN_START &&
      ctx.selected.length == 1 then
    handleDiscard ctx.selected s
  else none

/-- The SHOW button: render guard composed with `handleShow`. -/
def submitShow (ctx : LocalCtx) (s : GameState) : Option GameState :=
  if isPlayerTurn ctx s && s.phase == .PLAYER_TURN_START &&
      !s.tossedThisTurn then
    some (handleShow s)
  else none

/-- A click on either pile: render guard (pile nonempty, draw phase, the
local human's turn) composed with `handleDraw`. -/
def submitDraw (r : Nat → Nat) (ctx : LocalCtx) (source : DrawSource)
    (s : GameState) : Option GameState :=
  if isPlayerTurn ctx s &&
      (s.phase == .PLAYER_DRAW || s.phase == .PLAYER_TOSSING_DRAW) &&
      (match source with
       | .DECK => 0 < s.deck.length
       | .OPEN => 0 < s.openDeck.length) then
    handleDraw r source s
  else none

/-- The Next-Round button of the `ROUND_END` modal: rendered only in
`ROUND_END` and, online, only for the host seat 0. -/
def submitNextRound (r : Nat → Nat) (j : Nat) (ctx : LocalCtx)
    (s : GameState) : Option GameState :=
  let hostGate : Bool :=
    match s.gameMode with
    | some .ONLINE_HOST | some .ONLINE_CLIENT => ctx.myOnlineId == some 0
    | _ => true
  if s.phase == .ROUND_END && hostGate then nextRound r j ctx s else none

/-! ### The automated player (the bot `useEffect` of `App.tsx`) -/

/-- `isBotThinking` from `App.tsx` (minus the UI transition flag): the bot
effect fires only in single player, for a bot seat, outside `ROUND_END`. -/
def botActive (s : GameState) : Bool :=
  s.gameMode == some .SINGLE_PLAYER && (currentPlayer s).isBot &&
    !(s.phase == .ROUND_END)

/-- The `PLAYER_TURN_START` branch of the bot effect: ask `decideBotAction`
and apply the chosen action (show / toss / discard) exactly as the effect
body does. -/
def botTurnStart (s : GameState) : Option GameState :=
  if botActive s && s.phase == .PLAYER_TURN_START then
    let p := currentPlayer s
    match decideBotAction p s.roundJoker s.tossedThisTurn with
    | .show =>
      let results := getRoundScores s.players s.currentPlayerIndex s.roundJoker
      some { s with
        players := s.players.map (fun pl =>
          let rs := ((results.find? (fun r => r.1 = pl.id)).map (·.2)).getD 0
          { pl with
            score := rs,
            totalScore := pl.totalScore + rs,
            wasCaller := decide (pl.id = p.id) }),
        phase := .ROUND_END }
    | .toss cardIds =>
      let tossedCards := p.hand.filter (fun c => cardIds.contains c.id)
      let newHand := p.hand.filter (fun c => !cardIds.contains c.id)
      some { s with
        players := s.players.map (fun pl =>
          if pl.id = p.id then { pl with hand := newHand } else pl),
        pendingToss := tossedCards,
        phase := .PLAYER_TOSSING_DRAW,
        tossedThisTurn := true }
    | .dis cardIds =>
      match cardIds.get? 0 with
      | none => none
      | some cid =>
        match p.hand.find? (fun c => c.id = cid) with
        | none => none
        | some cardToDiscard =>
          some { s with
            players := s.players.map (fun pl =>
              if pl.id = p.id then
                { pl with hand := p.hand.filter (fun c => !(c.id = cardToDiscard.id : Bool)) }
              else pl),
            pendingDiscard := some cardToDiscard,
            lastDiscardedId := some cardToDiscard.id,
            phase := .PLAYER_DRAW }
  else none

/-- The draw branch of the bot effect: always draws from the deck, recycling
the discard pile when needed; in a deadlock (deck empty, discard pile ≤ 1
card) the effect just `return`s — the bot takes no action at all. -/
def botDraw (r : Nat → Nat) (s : GameState) : Option GameState :=
  if botActive s &&
      (s.phase == .PLAYER_DRAW || s.phase == .PLAYER_TOSSING_DRAW) then
    let p := currentPlayer s
    let recycled : Option (List CardData × List CardData) :=
      match s.deck with
      | [] =>
        if 1 < s.openDeck.length then
          match s.openDeck.getLast? with
          | none => none
          | some topCard => some (shuffleDeck r s.openDeck.dropLast, [topCard])
        else none
      | _ => some (s.deck, s.openDeck)
    match recycled with
    | none => none
    | some (deckToDrawFrom, openDeckBase) =>
      match deckToDrawFrom with
      | [] => none
      | drawn :: deckRest =>
        let newOpenDeck := openDeckBase ++ s.pendingToss ++ pendingDiscardList s
        some { s with
          players := s.players.map (fun pl =>
            if pl.id = p.id then { pl with hand := pl.hand ++ [drawn] } else pl),
          deck := deckRest,
          openDeck := newOpenDeck,
          pendingToss := [],
          pendingDiscard := none,
          currentPlayerIndex := (s.currentPlayerIndex + 1) % s.players.length,
          phase := .PLAYER_TURN_START,
          tossedThisTurn := false,
          lastDiscardedId := none }
  else none

/-! ### Permutation facts about the Fisher–Yates shuffle -/

theorem cons_get_set_perm (t : List α) :
    ∀ (m : Nat) (a b : α), t.get? m = some b → (b :: t.set m a).Perm (a :: t) := by
  induction t with
  | nil => intro m a b h; simp at h
  | cons c t' ih =>
    intro m a b h
    cases m with
    | zero =>
      rw [List.get?_cons_zero] at h
      injection h with h
      subst h
      rw [List.set_cons_zero]
      exact List.Perm.swap a c t'
    | succ k =>
      rw [List.get?_cons_succ] at h
      rw [List.set_cons_succ]
      exact ((List.Perm.swap c b _).trans ((ih k a b h).cons c)).trans
        (List.Perm.swap a c t')

theorem set_set_get_perm (l : List α) :
    ∀ (i j : Nat) (a b : α), l.get? i = some a → l.get? j = some b →
      ((l.set i b).set j a).Perm l := by
  induction l with
  | nil => intro i j a b h; simp at h
  | cons c t ih =>
    intro i j a b hi hj
    cases i with
    | zero =>
      rw [List.get?_cons_zero] at hi
      injection hi with hi
      subst hi
      cases j with
      | zero =>
        rw [List.get?_cons_zero] at hj
        injection hj with hj
        subst hj
        rw [List.set_cons_zero, List.set_cons_zero]
      | succ m =>
        rw [List.get?_cons_succ] at hj
        rw [List.set_cons_zero, List.set_cons_succ]
        exact cons_get_set_perm t m c b hj
    | succ k =>
      rw [List.get?_cons_succ] at hi
      cases j with
      | zero =>
        rw [List.get?_cons_zero] at hj
        injection hj with hj
        subst hj
        rw [List.set_cons_succ, List.set_cons_zero]
        exact cons_get_set_perm t k c a hi
      | succ m =>
        rw [List.get?_cons_succ] at hj
        rw [List.set_cons_succ, List.set_cons_succ]
        exact (ih k m a b hi hj).cons c

theorem listSwap_perm (l : List α) (i j : Nat) : (listSwap l i j).Perm l := by
  unfold listSwap
  cases hi : l.get? i with
  | none => exact List.Perm.refl l
  | some a =>
    cases hj : l.get? j with
    | none => exact List.Perm.refl l
    | some b => exact set_set_get_perm l i j a b hi hj

theorem fisherYates_perm (r : Nat → Nat) :
    ∀ (n : Nat) (l : List α), (fisherYates r n l).Perm l := by
  intro n
  induction n with
  | zero => intro l; exact List.Perm.refl l
  | succ i ih =>
    intro l
    exact (ih _).trans (listSwap_perm l (i + 1) (r (i + 1) % (i + 2)))

theorem shuffleDeck_perm (r : Nat → Nat) (deck : List α) :
    (shuffleDeck r deck).Perm deck :=
  fisherYates_perm r (deck.length - 1) deck

/-- C10: `shuffleDeck` returns a permutation of its input — exactly the same
cards, each exactly once; being a pure function of an up-front copy
(`[...deck]`), it never mutates, duplicates or destroys cards, for every
randomness oracle `r` and every input list. -/
theorem shuffleDeck_perm_of_input (r : Nat → Nat) (deck : List α) :
    (shuffleDeck r deck).Perm deck :=
  shuffleDeck_perm r deck

theorem shuffleDeck_length (r : Nat → Nat) (deck : List α) :
    (shuffleDeck r deck).length = deck.length :=
  (shuffleDeck_perm r deck).length_eq

theorem createDeck_perm (r : Nat → Nat) :
    (createDeck r).Perm standardDeck :=
  shuffleDeck_perm r standardDeck

theorem standardDeck_length : standardDeck.length = 52 := by decide

theorem createDeck_length (r : Nat → Nat) : (createDeck r).length = 52 := by
  rw [(createDeck_perm r).length_eq, standardDeck_length]

/-! ### Scoring: `calculateHandValue` and `getRoundScores` -/

theorem foldl_add_map (g : CardData → Nat) :
    ∀ (l : List CardData) (a : Nat),
      l.foldl (fun s c => s + g c) a = a + (l.map g).sum := by
  intro l
  induction l with
  | nil => intro a; simp
  | cons c t ih =>
    intro a
    rw [List.foldl_cons, ih, List.map_cons, List.sum_cons]
    omega

/-- With a joker present, the hand value is the sum of face values with every
joker-rank card contributing 0. -/
theorem calculateHandValue_some (hand : List CardData) (jk : CardData) :
    calculateHandValue hand (some jk) =
      (hand.map (fun c => if c.rank = jk.rank then 0 else c.value)).sum := by
  have hf : (fun (sum : Nat) (c : CardData) =>
        if c.rank = jk.rank then sum + 0 else sum + c.value) =
      fun sum c => sum + (if c.rank = jk.rank then 0 else c.value) := by
    funext s c
    by_cases h : c.rank = jk.rank <;> simp [h]
  show hand.foldl
      (fun sum c => if c.rank = jk.rank then sum + 0 else sum + c.value) 0 = _
  rw [hf, foldl_add_map]
  simp

/-- With no joker, the hand value is the plain sum of face values. -/
theorem calculateHandValue_none (hand : List CardData) :
    calculateHandValue hand none = (hand.map (·.value)).sum := by
  show hand.foldl (fun sum c => sum + c.value) 0 = _
  rw [foldl_add_map]
  simp

theorem jsMinList_mem : ∀ (l : List Nat), l ≠ [] → jsMinList l ∈ l := by
  have aux : ∀ (vs : List Nat) (v : Nat), vs.foldl Nat.min v ∈ v :: vs := by
    intro vs
    induction vs with
    | nil => intro v; simp
    | cons w ws ih =>
      intro v
      rw [List.foldl_cons]
      rcases List.mem_cons.mp (ih (Nat.min v w)) with h1 | h1
      · rw [h1]
        by_cases hvw : v ≤ w
        · simp [Nat.min_def, hvw]
        · simp [Nat.min_def, hvw]
      · exact List.mem_cons_of_mem v (List.mem_cons_of_mem w h1)
  intro l hl
  match l, hl with
  | v :: vs, _ =>
    show vs.foldl Nat.min v ∈ v :: vs
    exact aux vs v

/-- In a list of players with pairwise distinct ids, positions are determined
by ids. -/
theorem players_index_inj {ps : List Player} {i j : Nat} {p q : Player}
    (hnd : (ps.map (·.id)).Nodup)
    (hi : ps.get? i = some p) (hj : ps.get? j = some q) (hid : p.id = q.id) :
    i = j := by
  have hmi : (ps.map (·.id))[i]? = some p.id := by
    rw [List.getElem?_map, ← List.get?_eq_getElem?, hi]; rfl
  have hmj : (ps.map (·.id))[j]? = some q.id := by
    rw [List.getElem?_map, ← List.get?_eq_getElem?, hj]; rfl
  exact List.getElem?_inj (by
      rw [List.length_map]
      exact (List.get?_eq_some.mp hi).1) hnd (by rw [hmi, hmj, hid])

/-- The first player found by id, in a duplicate-free roster, is the player
itself. -/
theorem find_player_by_id : ∀ (ps : List Player) (p : Player), p ∈ ps →
    (ps.map (·.id)).Nodup → ps.find? (fun q => q.id = p.id) = some p := by
  intro ps
  induction ps with
  | nil => intro p hmem; simp at hmem
  | cons q t ih =>
    intro p hmem hnd
    rw [List.map_cons, List.nodup_cons] at hnd
    by_cases hq : q.id = p.id
    · have hpq : p = q := by
        rcases List.mem_cons.mp hmem with h | h
        · exact h
        · exact absurd (show q.id ∈ t.map (·.id) by
            rw [hq]; exact List.mem_map_of_mem (·.id) h) hnd.1
      rw [List.find?_cons_of_pos _ (by simp [hq]), hpq]
    · have hpt : p ∈ t := by
        rcases List.mem_cons.mp hmem with h | h
        · exact absurd (congrArg Player.id h.symm) hq
        · exact h
      rw [List.find?_cons_of_neg _ (by simp [hq])]
      exact ih p hpt hnd.2

/-- The list of per-seat hand values (the `handValues.map(h => h.val)` view
used inside `getRoundScores`). -/
def seatValues (players : List Player) (joker : Option CardData) : List Nat :=
  players.map (fun q => calculateHandValue q.hand joker)

/-- C4: `getRoundScores` computes each seat's hand value as the sum of face
values with wildcard-rank cards contributing 0; every non-caller seat's round
score is its own hand value; the caller scores 0 when its hand value is the
unique minimum, 25 (tie penalty) when it equals a shared minimum, and 50
(mis-call penalty) otherwise.  The roster has distinct seat ids and a valid
caller index. -/
theorem getRoundScores_spec (players : List Player) (cIdx : Nat)
    (joker : Option CardData)
    (h1 : cIdx < players.length) (h2 : (players.map (·.id)).Nodup) :
    (∀ (hand : List CardData) (jk : CardData),
        calculateHandValue hand (some jk) =
          (hand.map (fun c => if c.rank = jk.rank then 0 else c.value)).sum) ∧
    (∀ i p, players.get? i = some p →
      (getRoundScores players cIdx joker).get? i = some (p.id,
        if i = cIdx then
          if calculateHandValue p.hand joker = jsMinList (seatValues players joker) ∧
              (seatValues players joker).count (jsMinList (seatValues players joker)) = 1
          then 0
          else if calculateHandValue p.hand joker = jsMinList (seatValues players joker)
          then 25
          else 50
        else calculateHandValue p.hand joker)) := by
  constructor
  · exact fun hand jk => calculateHandValue_some hand jk
  intro i p hip
  have hpc : players.get? cIdx = some (players.get ⟨cIdx, h1⟩) := List.get?_eq_get h1
  set pc := players.get ⟨cIdx, h1⟩ with hpcdef
  have hmem : pc ∈ players := List.get_mem players cIdx h1
  have hfindP : players.find? (fun q => q.id = pc.id) = some pc :=
    find_player_by_id players pc hmem h2
  have hfind : (players.map (fun q => (q.id, calculateHandValue q.hand joker))).find?
      (fun h => h.1 = pc.id) = some (pc.id, calculateHandValue pc.hand joker) := by
    rw [List.find?_map]
    have hcomp : players.find?
        ((fun (h : Int × Nat) => (h.1 = pc.id : Bool)) ∘
          (fun q => (q.id, calculateHandValue q.hand joker))) = some pc := hfindP
    rw [hcomp]
    rfl
  have hvals : ((players.map (fun q => (q.id, calculateHandValue q.hand joker))).map
      (fun h => h.2)) = seatValues players joker := by
    rw [List.map_map]
    rfl
  simp only [getRoundScores, List.get?_map, hip, Option.map_some', hpc, hfind, hvals]
  by_cases hic : i = cIdx
  · subst hic
    have hp : p = pc := by
      rw [hip] at hpc
      exact (Option.some.injEq _ _).mp hpc.symm |>.symm
    subst hp
    have hlo : jsMinList (seatValues players joker) ∈ seatValues players joker := by
      apply jsMinList_mem
      intro hnil
      have : players = [] := List.map_eq_nil.mp hnil
      rw [this] at h1
      exact absurd h1 (by simp)
    have hcount : 0 < (seatValues players joker).count
        (jsMinList (seatValues players joker)) := List.count_pos_iff.mpr hlo
    by_cases hA : calculateHandValue pc.hand joker =
        jsMinList (seatValues players joker) ∧
        (seatValues players joker).count (jsMinList (seatValues players joker)) = 1
    · simp [hA.1, hA.2]
    · by_cases hB : calculateHandValue pc.hand joker =
          jsMinList (seatValues players joker)
      · have h1lt : 1 < (seatValues players joker).count
            (jsMinList (seatValues players joker)) := by
          rcases Nat.lt_or_ge ((seatValues players joker).count
            (jsMinList (seatValues players joker))) 2 with h | h
          · exact absurd ⟨hB, by omega⟩ hA
          · omega
        simp [hA, hB, h1lt]
      · simp [hA, hB]
  · have hne : ¬ (pc.id = p.id) := by
      intro he
      exact hic (players_index_inj h2 hip hpc he.symm)
    simp [hic, hne]

/-! ### Concrete sample data for witnesses -/

/-- A sample card for concrete instances. -/
def wCard (n : Nat) (rk : Rank) : CardData :=
  { id := "w" ++ toString n, suit := .spades, rank := rk, value := rk.value }

/-- A sample seat for concrete instances. -/
def wP (n : Nat) (hand : List CardData) : Player :=
  { id := Int.ofNat n, name := "W" ++ toString n, isBot := false, hand := hand,
    score := 0, totalScore := 0, lastAction := "", wasCaller := false }

/-- The spec's scoring scenario: wildcard rank 7; seat 0 holds `[A,2,3]`
(value 6), the unique lowest among four seats; seat 3 holds two wildcard 7s
and a king (value 10). -/
def wPlayers : List Player :=
  [wP 0 [wCard 0 .ace, wCard 1 .two, wCard 2 .three],
   wP 1 [wCard 3 .king, wCard 4 .queen, wCard 5 .four],
   wP 2 [wCard 6 .five, wCard 7 .five, wCard 8 .ace],
   wP 3 [wCard 9 .seven, wCard 10 .seven, wCard 11 .king]]

/-- A sample UI context: a local (non-online) participant with no overlay. -/
def wCtx : LocalCtx :=
  { myOnlineId := none, isTransitioning := false, selected := [],
    selectedTotalRounds := 5 }

/-- A sample `ROUND_END` state on the final round. -/
def wStateRoundEnd : GameState :=
  { gameMode := some .SINGLE_PLAYER, deck := [], openDeck := [],
    players := wPlayers, currentPlayerIndex := 0, roundJoker := none,
    roundNumber := 5, totalRounds := 5, phase := .ROUND_END, turnLog := [],
    lastDiscardedId := none, tossedThisTurn := false, pendingDiscard := none,
    pendingToss := [] }

/-- Witness for C4 at the spec's concrete scenario: the caller (seat 0,
unique lowest at 6 with wildcard rank 7) scores 0, and seat 3's two
wildcard 7s contribute nothing, leaving only the king's 10. -/
theorem getRoundScores_spec_witness :
    (getRoundScores wPlayers 0 (some (wCard 99 .seven))).get? 0 = some (0, 0) ∧
    (getRoundScores wPlayers 0 (some (wCard 99 .seven))).get? 3 = some (3, 10) := by
  have h := getRoundScores_spec wPlayers 0 (some (wCard 99 .seven))
    (by decide) (by decide)
  constructor
  · have h0 := h.2 0 (wP 0 [wCard 0 .ace, wCard 1 .two, wCard 2 .three]) (by rfl)
    rw [h0]
    decide
  · have h3 := h.2 3 (wP 3 [wCard 9 .seven, wCard 10 .seven, wCard 11 .king]) (by rfl)
    rw [h3]
    decide

/-! ### C1: phase and active-seat validation on the action surface -/

/-- C1: every action submitted through the engine-facing surface
(`submitShow`/`handleShow`, `submitToss`/`handleToss`,
`submitDiscard`/`handleDiscard`, `submitDraw`/`handleDraw`) is validated
against the current phase and the active-seat identity before any mutation:
submitted out of phase, or when the local participant is not the active seat,
the submission yields `none` — no successor state is produced, the game state
is left unchanged. -/
theorem action_surface_validated (r : Nat → Nat) (ctx : LocalCtx)
    (src : DrawSource) (s : GameState) :
    (s.phase ≠ .PLAYER_TURN_START →
      submitToss ctx s = none ∧ submitDiscard ctx s = none ∧
        submitShow ctx s = none) ∧
    (s.phase ≠ .PLAYER_DRAW → s.phase ≠ .PLAYER_TOSSING_DRAW →
      submitDraw r ctx src s = none) ∧
    (isMyTurnOnline ctx s = false →
      submitToss ctx s = none ∧ submitDiscard ctx s = none ∧
        submitShow ctx s = none ∧ submitDraw r ctx src s = none) := by
  refine ⟨fun hp => ⟨?_, ?_, ?_⟩, fun h1 h2 => ?_, fun hmt => ⟨?_, ?_, ?_, ?_⟩⟩
  · simp [submitToss, hp]
  · simp [submitDiscard, hp]
  · simp [submitShow, hp]
  · simp [submitDraw, h1, h2]
  · simp [submitToss, isPlayerTurn, hmt]
  · simp [submitDiscard, isPlayerTurn, hmt]
  · simp [submitShow, isPlayerTurn, hmt]
  · simp [submitDraw, isPlayerTurn, hmt]

/-- Witness for C1: in a concrete `ROUND_END` state every action surface
call is rejected. -/
theorem action_surface_validated_witness :
    submitToss wCtx wStateRoundEnd = none ∧
    submitDiscard wCtx wStateRoundEnd = none ∧
    submitShow wCtx wStateRoundEnd = none ∧
    submitDraw (fun _ => 0) wCtx .DECK wStateRoundEnd = none := by
  have h := action_surface_validated (fun _ => 0) wCtx .DECK wStateRoundEnd
  exact ⟨(h.1 (by decide)).1, (h.1 (by decide)).2.1, (h.1 (by decide)).2.2,
    h.2.1 (by decide) (by decide)⟩

/-! ### C7: no immediate reclaim of the just-discarded card -/

/-- A successful toss leaves the "last discarded" marker untouched (the
`handleToss` state literal does not mention `lastDiscardedId`). -/
theorem handleToss_lastDiscarded {sel : List String} {s s' : GameState}
    (h : handleToss sel s = some s') :
    s'.lastDiscardedId = s.lastDiscardedId := by
  unfold handleToss at h
  split at h
  · exact absurd h (by simp)
  · split at h
    · exact absurd h (by simp)
    · dsimp only at h
      split at h
      · split at h
        · exact absurd h (by simp)
        · injection h with h
          subst h
          rfl
      · exact absurd h (by simp)

/-- C7: with a visible top card on the discard pile, a draw from the discard
pile is rejected (no state produced) exactly when the phase is `PLAYER_DRAW`
and the top card's id equals the "last discarded" marker; in particular the
same draw succeeds in `PLAYER_TOSSING_DRAW`, and a toss never sets the
marker. -/
theorem no_immediate_reclaim (r : Nat → Nat) (s : GameState) (top : CardData)
    (h : s.openDeck.getLast? = some top) :
    (handleDraw r .OPEN s = none ↔
      (s.phase = .PLAYER_DRAW ∧ s.lastDiscardedId = some top.id)) ∧
    (s.phase = .PLAYER_TOSSING_DRAW →
      ∃ s', handleDraw r .OPEN s = some s') ∧
    (∀ ctx s₁ s₂, submitToss ctx s₁ = some s₂ →
      s₂.lastDiscardedId = s₁.lastDiscardedId) := by
  refine ⟨?_, ?_, ?_⟩
  · by_cases hph : s.phase = .PLAYER_DRAW <;>
      by_cases hld : s.lastDiscardedId = some top.id <;>
        simp [handleDraw, h, hph, hld]
  · intro hph
    simp [handleDraw, h, hph]
  · intro ctx s₁ s₂ hst
    unfold submitToss at hst
    split at hst
    · exact handleToss_lastDiscarded hst
    · exact absurd hst (by simp)

/-- A concrete discard pile whose top card `w1` was just discarded. -/
def wReclaimState : GameState :=
  { gameMode := some .MULTIPLAYER, deck := [wCard 20 .nine],
    openDeck := [wCard 21 .four, wCard 1 .two],
    players := wPlayers, currentPlayerIndex := 0, roundJoker := none,
    roundNumber := 1, totalRounds := 5, phase := .PLAYER_DRAW, turnLog := [],
    lastDiscardedId := some (wCard 1 .two).id, tossedThisTurn := false,
    pendingDiscard := some (wCard 1 .two), pendingToss := [] }

/-- Witness for C7: in `wReclaimState` (phase `PLAYER_DRAW`, top of the
discard pile = the just-discarded card) the open-pile draw is rejected. -/
theorem no_immediate_reclaim_witness :
    handleDraw (fun _ => 0) .OPEN wReclaimState = none := by
  have h := no_immediate_reclaim (fun _ => 0) wReclaimState (wCard 1 .two) (by decide)
  exact h.1.mpr (by decide)

theorem map_get?_some {α β : Type _} (f : α → β) {l : List α} {i : Nat} {a : α}
    (h : l.get? i = some a) : (l.map f).get? i = some (f a) := by
  rw [List.get?_map, h]
  rfl

/-! ### C6: discard-pile recycling -/

/-- C6: a deck draw with an empty draw pile and a discard pile of ≥ 2 cards
recycles: the top discard card is set aside, the remaining discard cards are
shuffled into the new draw pile (whose size is the old discard-pile size − 1),
the recycled discard pile is exactly the set-aside top card (the committed
pending buffers are then appended to it, per the normal end-of-draw commit),
and the drawn card is the head of the recycled draw pile. -/
theorem recycling_correct (r : Nat → Nat) (s : GameState)
    (h1 : s.deck = []) (h2 : 2 ≤ s.openDeck.length) :
    ∃ top drawn pile',
      s.openDeck.getLast? = some top ∧
      shuffleDeck r s.openDeck.dropLast = drawn :: pile' ∧
      (shuffleDeck r s.openDeck.dropLast).length = s.openDeck.length - 1 ∧
      handleDraw r .DECK s = some (finishTurn (currentPlayer s).id
        ((currentPlayer s).hand ++ [drawn])
        ([top] ++ s.pendingToss ++ pendingDiscardList s)
        pile' "Drew from Deck" s) := by
  have hlen : (shuffleDeck r s.openDeck.dropLast).length = s.openDeck.length - 1 := by
    rw [shuffleDeck_length, List.length_dropLast]
  obtain ⟨top, htop⟩ : ∃ t, s.openDeck.getLast? = some t := by
    cases ho : s.openDeck.getLast? with
    | none =>
      rw [List.getLast?_eq_none_iff] at ho
      rw [ho] at h2
      exact absurd h2 (by simp)
    | some t => exact ⟨t, rfl⟩
  obtain ⟨drawn, pile', hsh⟩ :
      ∃ d p', shuffleDeck r s.openDeck.dropLast = d :: p' := by
    cases hs : shuffleDeck r s.openDeck.dropLast with
    | nil =>
      rw [hs] at hlen
      simp at hlen
      omega
    | cons d p' => exact ⟨d, p', rfl⟩
  have h2' : 1 < s.openDeck.length := h2
  refine ⟨top, drawn, pile', htop, hsh, hlen, ?_⟩
  simp [handleDraw, h1, htop, hsh, h2']

/-- A concrete recycling scenario: empty deck, three discarded cards. -/
def wRecycleState : GameState :=
  { gameMode := some .MULTIPLAYER, deck := [],
    openDeck := [wCard 40 .three, wCard 41 .eight, wCard 42 .jack],
    players := wPlayers, currentPlayerIndex := 1, roundJoker := none,
    roundNumber := 1, totalRounds := 5, phase := .PLAYER_DRAW, turnLog := [],
    lastDiscardedId := some (wCard 43 .ten).id, tossedThisTurn := false,
    pendingDiscard := some (wCard 43 .ten), pendingToss := [] }

/-- Witness for C6: the hypotheses hold at `wRecycleState` and the draw
succeeds there. -/
theorem recycling_correct_witness :
    wRecycleState.deck = [] ∧ 2 ≤ wRecycleState.openDeck.length ∧
    (handleDraw (fun _ => 0) .DECK wRecycleState).isSome = true := by
  obtain ⟨top, drawn, pile', htop, hsh, hlen, heq⟩ :=
    recycling_correct (fun _ => 0) wRecycleState rfl (by decide)
  refine ⟨rfl, by decide, ?_⟩
  rw [heq]
  rfl

/-! ### C5: deadlock forcing -/

/-- C5 (amended): with an empty draw pile and a discard pile of fewer than 2
cards, a *human* deck draw (`handleDraw`) forces an immediate `handleShow`:
the state moves to `ROUND_END` with the active seat flagged as caller and no
error is thrown.  The *automated* seat's draw step (`botDraw`), however,
produces no transition at all in the same situation — the bot effect's
deadlock branch just returns. -/
theorem deadlock_forcing (r : Nat → Nat) (s : GameState)
    (h1 : s.deck = []) (h2 : s.openDeck.length < 2) :
    (handleDraw r .DECK s = some (handleShow s) ∧
     (handleShow s).phase = .ROUND_END ∧
     ∀ i p, s.players.get? i = some p →
       ∃ p', (handleShow s).players.get? i = some p' ∧
         p'.wasCaller = decide (p.id = (currentPlayer s).id)) ∧
    botDraw r s = none := by
  have h2' : ¬ 1 < s.openDeck.length := by omega
  refine ⟨⟨?_, rfl, ?_⟩, ?_⟩
  · simp [handleDraw, h1, h2']
  · intro i p hip
    simp only [handleShow]
    exact ⟨_, map_get?_some _ hip, rfl⟩
  · unfold botDraw
    split
    · simp [h1, h2']
    · rfl

/-- A deadlocked single-player state whose active seat is a bot: empty deck,
one discard-pile card, mid-draw. -/
def wBotDeadlock : GameState :=
  { gameMode := some .SINGLE_PLAYER, deck := [],
    openDeck := [wCard 30 .six],
    players := [{ wP 0 [wCard 31 .two, wCard 32 .nine] with isBot := true },
                wP 1 [wCard 33 .five, wCard 34 .five, wCard 35 .queen]],
    currentPlayerIndex := 0, roundJoker := none, roundNumber := 1,
    totalRounds := 5, phase := .PLAYER_DRAW, turnLog := [],
    lastDiscardedId := some (wCard 36 .king).id, tossedThisTurn := false,
    pendingDiscard := some (wCard 36 .king), pendingToss := [] }

/-- Counterexample for C5 as stated: in `wBotDeadlock` the draw source is
exhausted (deck empty, discard pile < 2) and the active seat is automated,
yet the engine's automated draw step yields no transition — the state is
not moved to `ROUND_END`, the bot simply stalls. -/
theorem deadlock_forcing_counterexample :
    botDraw (fun _ => 0) wBotDeadlock = none ∧
    wBotDeadlock.deck = [] ∧ wBotDeadlock.openDeck.length < 2 ∧
    (currentPlayer wBotDeadlock).isBot = true ∧
    wBotDeadlock.phase = .PLAYER_DRAW := by
  decide

/-- Witness for C5 (amended) at `wBotDeadlock`: the human path would force
the round end while the bot path no-ops. -/
theorem deadlock_forcing_witness :
    handleDraw (fun _ => 0) .DECK wBotDeadlock =
      some (handleShow wBotDeadlock) ∧
    (handleShow wBotDeadlock).phase = .ROUND_END ∧
    botDraw (fun _ => 0) wBotDeadlock = none := by
  have h := deadlock_forcing (fun _ => 0) wBotDeadlock rfl (by decide)
  exact ⟨h.1.1, h.1.2.1, h.2⟩

/-! ### C8: what `ROUND_END` accepts on the final round -/

/-- C8: in a concrete `ROUND_END` state whose round counter has reached the
configured total, the advance action (`nextRound` behind the modal's button)
produces no transition at all: `nextRound` early-returns, and no code path in
the program ever assigns the `MATCH_END` phase, so the advertised
`ROUND_END → MATCH_END` transition never happens. -/
theorem roundEnd_final_advance_noop :
    submitNextRound (fun _ => 0) 0 wCtx wStateRoundEnd = none ∧
    wStateRoundEnd.phase = .ROUND_END ∧
    wStateRoundEnd.roundNumber = wStateRoundEnd.totalRounds := by
  decide

/-! ### C9: the automated-player policy -/

theorem botCardValue_nonneg (joker : Option CardData) (c : CardData) :
    0 ≤ botCardValue joker c := by
  unfold botCardValue
  cases joker with
  | none => exact Int.natCast_nonneg _
  | some jk =>
    show 0 ≤ if c.rank = jk.rank then 0 else (c.value : Int)
    by_cases h : c.rank = jk.rank
    · rw [if_pos h]
    · rw [if_neg h]
      exact Int.natCast_nonneg _

theorem firstOccurrences_mem (rk : Rank) :
    ∀ (l : List Rank), rk ∈ firstOccurrences l ↔ rk ∈ l := by
  intro l
  induction l with
  | nil => simp [firstOccurrences]
  | cons a rest ih =>
    unfold firstOccurrences
    constructor
    · intro h
      rcases List.mem_cons.mp h with h1 | h1
      · exact h1 ▸ List.mem_cons_self a rest
      · exact List.mem_cons_of_mem a (ih.mp (List.mem_filter.mp h1).1)
    · intro h
      rcases List.mem_cons.mp h with h1 | h1
      · exact h1 ▸ List.mem_cons_self a _
      · by_cases hra : rk = a
        · exact hra ▸ List.mem_cons_self a _
        · exact List.mem_cons_of_mem a
            (List.mem_filter.mpr ⟨ih.mpr h1, by simp [hra]⟩)

theorem rankKeysOrder_mem (hand : List CardData) (rk : Rank) :
    rk ∈ rankKeysOrder hand ↔ rk ∈ hand.map (·.rank) := by
  unfold rankKeysOrder
  constructor
  · intro h
    rcases List.mem_append.mp h with h1 | h1
    · exact (firstOccurrences_mem rk _).mp
        (by simpa using (List.mem_filter.mp h1).2)
    · exact (firstOccurrences_mem rk _).mp (List.mem_filter.mp h1).1
  · intro h
    have hpres : rk ∈ firstOccurrences (hand.map (·.rank)) :=
      (firstOccurrences_mem rk _).mpr h
    by_cases hnum : rk ∈ jsNumericRanks
    · exact List.mem_append.mpr (Or.inl
        (List.mem_filter.mpr ⟨hnum, by simpa using hpres⟩))
    · exact List.mem_append.mpr (Or.inr
        (List.mem_filter.mpr ⟨hpres, by simpa using hnum⟩))

theorem botFold_spec (joker : Option CardData) :
    ∀ (l : List CardData) (acc : CardData × Int),
      (l.foldl (botFoldStep joker) acc = acc ∨
        ((l.foldl (botFoldStep joker) acc).1 ∈ l ∧
          (l.foldl (botFoldStep joker) acc).2 =
            botCardValue joker (l.foldl (botFoldStep joker) acc).1)) ∧
      acc.2 ≤ (l.foldl (botFoldStep joker) acc).2 ∧
      ∀ d ∈ l, botCardValue joker d ≤ (l.foldl (botFoldStep joker) acc).2 := by
  intro l
  induction l with
  | nil =>
    intro acc
    exact ⟨Or.inl rfl, le_refl _, by simp⟩
  | cons c t ih =>
    intro acc
    rw [List.foldl_cons]
    obtain ⟨ih1, ih2, ih3⟩ := ih (botFoldStep joker acc c)
    have hstep : botFoldStep joker acc c = acc ∨
        botFoldStep joker acc c = (c, botCardValue joker c) := by
      unfold botFoldStep
      split
      · exact Or.inr rfl
      · exact Or.inl rfl
    have hacc : acc.2 ≤ (botFoldStep joker acc c).2 := by
      unfold botFoldStep
      split
      · next hlt => exact le_of_lt hlt
      · exact le_refl _
    have hc : botCardValue joker c ≤ (botFoldStep joker acc c).2 := by
      unfold botFoldStep
      split
      · exact le_refl _
      · next hlt => exact Int.not_lt.mp hlt
    refine ⟨?_, le_trans hacc ih2, ?_⟩
    · rcases ih1 with h | h
      · rw [h]
        rcases hstep with h2 | h2
        · exact Or.inl h2
        · exact Or.inr (h2 ▸ ⟨List.mem_cons_self c t, rfl⟩)
      · exact Or.inr ⟨List.mem_cons_of_mem c h.1, h.2⟩
    · intro d hd
      rcases List.mem_cons.mp hd with h | h
      · subst h
        exact le_trans hc ih2
      · exact ih3 d h

/-- C9: `decideBotAction` returns exactly one action by the fixed priority
list.  (1) If the seat has not tossed this turn and the hand holds a
same-rank pair of a non-wildcard rank, it tosses the first two hand cards of
such a rank.  Otherwise, (2) at wildcard-aware hand value ≤ 5 it shows, and
(3) above 5 it discards a card of maximal wildcard-aware value (wildcards
counted 0, hence never discarded preferentially). -/
theorem decideBotAction_policy (p : Player) (joker : Option CardData)
    (tossed : Bool) :
    (tossed = false →
      (∃ rk, 2 ≤ (p.hand.filter (·.rank = rk)).length ∧
        ∀ jk, joker = some jk → rk ≠ jk.rank) →
      ∃ rk a b tl,
        (∀ jk, joker = some jk → rk ≠ jk.rank) ∧
        p.hand.filter (·.rank = rk) = a :: b :: tl ∧
        a ∈ p.hand ∧ b ∈ p.hand ∧ a.rank = rk ∧ b.rank = rk ∧
        decideBotAction p joker tossed = .toss [a.id, b.id]) ∧
    ((tossed = true ∨
        ¬ ∃ rk, 2 ≤ (p.hand.filter (·.rank = rk)).length ∧
          ∀ jk, joker = some jk → rk ≠ jk.rank) →
      (calculateHandValue p.hand joker ≤ 5 →
        decideBotAction p joker tossed = .show) ∧
      (5 < calculateHandValue p.hand joker → p.hand ≠ [] →
        ∃ c, c ∈ p.hand ∧
          (∀ d ∈ p.hand, botCardValue joker d ≤ botCardValue joker c) ∧
          decideBotAction p joker tossed = .dis [c.id])) := by
  constructor
  · -- priority 1: toss
    intro htoss hpair
    obtain ⟨rk, hlen2, hjk⟩ := hpair
    have hrkmem : rk ∈ p.hand.map (·.rank) := by
      cases hf : p.hand.filter (·.rank = rk) with
      | nil => rw [hf] at hlen2; exact absurd hlen2 (by simp)
      | cons c cs =>
        have hcmem : c ∈ p.hand.filter (fun x => decide (x.rank = rk)) := by
          rw [hf]; exact List.mem_cons_self c cs
        obtain ⟨hcp, hcrk⟩ := List.mem_filter.mp hcmem
        exact (of_decide_eq_true hcrk) ▸ List.mem_map_of_mem (·.rank) hcp
    have horder : rk ∈ rankKeysOrder p.hand := (rankKeysOrder_mem _ _).mpr hrkmem
    have hgmem : (rk, p.hand.filter (·.rank = rk)) ∈
        (rankKeysOrder p.hand).map (fun rk => (rk, p.hand.filter (·.rank = rk))) :=
      List.mem_map_of_mem _ horder
    have hpred : tossPred joker (rk, p.hand.filter (·.rank = rk)) = true := by
      unfold tossPred
      rw [Bool.and_eq_true]
      refine ⟨decide_eq_true hlen2, ?_⟩
      cases joker with
      | none => rfl
      | some jk => simp [hjk jk rfl]
    have hsome : (((rankKeysOrder p.hand).map
        (fun rk => (rk, p.hand.filter (·.rank = rk)))).find?
          (tossPred joker)).isSome := by
      exact List.find?_isSome.mpr ⟨_, hgmem, hpred⟩
    obtain ⟨g₀, hfind⟩ := Option.isSome_iff_exists.mp hsome
    have hp₀ := List.find?_some hfind
    obtain ⟨rk', hrk', hg₀⟩ := List.mem_map.mp (List.mem_of_find?_eq_some hfind)
    subst hg₀
    unfold tossPred at hp₀
    rw [Bool.and_eq_true] at hp₀
    have hlen' : 2 ≤ (p.hand.filter (·.rank = rk')).length :=
      of_decide_eq_true hp₀.1
    have hjk' : ∀ jk, joker = some jk → rk' ≠ jk.rank := by
      intro jk hj
      subst hj
      have h2 := hp₀.2
      simp only [Bool.not_eq_true'] at h2
      exact of_decide_eq_false h2
    obtain ⟨a, b, tl, hcs⟩ :
        ∃ a b tl, p.hand.filter (·.rank = rk') = a :: b :: tl := by
      cases h1 : p.hand.filter (·.rank = rk') with
      | nil => rw [h1] at hlen'; exact absurd hlen' (by simp)
      | cons a rest =>
        cases h2 : rest with
        | nil => rw [h1, h2] at hlen'; exact absurd hlen' (by simp)
        | cons b tl => exact ⟨a, b, tl, rfl⟩
    have hamem : a ∈ p.hand ∧ a.rank = rk' := by
      have := List.mem_filter.mp (show a ∈ p.hand.filter
          (fun c => decide (c.rank = rk')) by
        rw [hcs]; exact List.mem_cons_self _ _)
      exact ⟨this.1, of_decide_eq_true this.2⟩
    have hbmem : b ∈ p.hand ∧ b.rank = rk' := by
      have := List.mem_filter.mp (show b ∈ p.hand.filter
          (fun c => decide (c.rank = rk')) by
        rw [hcs]; exact List.mem_cons_of_mem a (List.mem_cons_self _ _))
      exact ⟨this.1, of_decide_eq_true this.2⟩
    refine ⟨rk', a, b, tl, hjk', hcs, hamem.1, hbmem.1, hamem.2, hbmem.2, ?_⟩
    simp only [decideBotAction, htoss, Bool.false_eq_true, if_false, hfind, hcs]
  · -- priorities 2 and 3
    intro hnp
    have hnone : tossed = true ∨
        (((rankKeysOrder p.hand).map
          (fun rk => (rk, p.hand.filter (·.rank = rk)))).find?
            (tossPred joker)) = none := by
      rcases hnp with h | h
      · exact Or.inl h
      · refine Or.inr (List.find?_eq_none.mpr ?_)
        intro g hg hpg
        obtain ⟨rk', hrk', hg₀⟩ := List.mem_map.mp hg
        subst hg₀
        unfold tossPred at hpg
        rw [Bool.and_eq_true] at hpg
        refine h ⟨rk', of_decide_eq_true hpg.1, ?_⟩
        intro jk hj
        subst hj
        have h2 := hpg.2
        simp only [Bool.not_eq_true'] at h2
        exact of_decide_eq_false h2
    have htc : decideBotAction p joker tossed =
        (if calculateHandValue p.hand joker ≤ 5 then BotAction.show
         else
           match p.hand with
           | [] => BotAction.dis []
           | h0 :: _ =>
             BotAction.dis [(p.hand.foldl (botFoldStep joker) (h0, -1)).1.id]) := by
      rcases hnone with h | h
      · simp only [decideBotAction, h, if_true]
      · cases htos : tossed with
        | true => simp only [decideBotAction, htos, if_true]
        | false => simp only [decideBotAction, htos, Bool.false_eq_true, if_false, h]
    constructor
    · intro h5
      rw [htc, if_pos h5]
    · intro h5 hne
      obtain ⟨h0, t, hhand⟩ : ∃ h0 t, p.hand = h0 :: t := by
        cases hh : p.hand with
        | nil => exact absurd hh hne
        | cons h0 t => exact ⟨h0, t, rfl⟩
      obtain ⟨hb1, _, hb3⟩ := botFold_spec joker p.hand (h0, -1)
      have hh0mem : h0 ∈ p.hand := by rw [hhand]; exact List.mem_cons_self _ _
      have hh0 : botCardValue joker h0 ≤
          (p.hand.foldl (botFoldStep joker) (h0, -1)).2 := hb3 h0 hh0mem
      have hnn := botCardValue_nonneg joker h0
      rcases hb1 with hcontr | hgood
      · rw [hcontr] at hh0
        exact absurd hh0 (by simp; omega)
      · refine ⟨(p.hand.foldl (botFoldStep joker) (h0, -1)).1, hgood.1, ?_, ?_⟩
        · intro d hd
          rw [← hgood.2]
          exact hb3 d hd
        · rw [htc, if_neg (by omega)]
          rw [hhand]

/-- Witness for C9: a hand worth 4 with the toss already used up makes the
bot show. -/
theorem decideBotAction_policy_witness :
    decideBotAction (wP 4 [wCard 50 .ace, wCard 51 .two, wCard 52 .ace])
      (some (wCard 99 .seven)) true = .show := by
  exact ((decideBotAction_policy
    (wP 4 [wCard 50 .ace, wCard 51 .two, wCard 52 .ace])
    (some (wCard 99 .seven)) true).2 (Or.inl rfl)).1 (by decide)

/-! ### Reachable states and the card-conservation invariant -/

/-- All cards currently held in hands, in roster order. -/
def handsList (ps : List Player) : List CardData :=
  (ps.map Player.hand).flatten

/-- Every card tracked by a `GameState`: draw pile, discard pile, hands and
the two pending buffers. -/
def cardsList (s : GameState) : List CardData :=
  s.deck ++ s.openDeck ++ handsList s.players ++ s.pendingToss ++
    pendingDiscardList s

/-- The roster shape every game in the program builds and preserves: seat ids
are exactly the positions `0, 1, …` (local games number players that way,
`joinRoom` assigns `newPlayerId = currentPlayers.length`, and no transition
reorders the roster). -/
def RosterOk (ps : List Player) : Prop :=
  ps.map (·.id) = (List.range ps.length).map Int.ofNat

/-- Every seat other than the active one holds between 1 and 3 cards. -/
def othersHandsOk (ps : List Player) (idx : Nat) : Prop :=
  ∀ i p, ps.get? i = some p → i ≠ idx →
    1 ≤ p.hand.length ∧ p.hand.length ≤ 3

/-- The per-phase hand-size bookkeeping: full 1–3 card hands (and empty
pending buffers) at `PLAYER_TURN_START`; mid-turn, the active seat is down
the tossed pair (≤ 1 card) or the discarded card (≤ 2 cards). -/
def HandSizes (s : GameState) : Prop :=
  match s.phase with
  | .PLAYER_TURN_START =>
      (∀ p ∈ s.players, 1 ≤ p.hand.length ∧ p.hand.length ≤ 3) ∧
      s.pendingToss = [] ∧ s.pendingDiscard = none
  | .PLAYER_TOSSING_DRAW =>
      othersHandsOk s.players s.currentPlayerIndex ∧
        (currentPlayer s).hand.length ≤ 1
  | .PLAYER_DRAW =>
      othersHandsOk s.players s.currentPlayerIndex ∧
        (currentPlayer s).hand.length ≤ 2
  | _ => True

/-- The inductive invariant: the tracked cards are a permutation of the full
deck, the roster ids are the positions, the active index is in range, and the
hand sizes follow the phase. -/
structure Inv (s : GameState) : Prop where
  bag : (cardsList s).Perm standardDeck
  roster : RosterOk s.players
  nonempty : s.players ≠ []
  idxlt : s.currentPlayerIndex < s.players.length
  size10 : s.players.length ≤ 10
  hands : HandSizes s

/-- The states the engine can reach: a round start (next-round or fresh
game), followed by any sequence of accepted submissions and bot effect
steps. -/
inductive Reachable : GameState → Prop where
  | start (r : Nat → Nat) (j roundNum : Nat) (ps : List Player)
      (mode : Option GameMode) (count : Nat) (names : List String)
      (rounds : Nat) (s0 : GameState) :
      RosterOk ps → ps ≠ [] → ps.length ≤ 10 →
      Reachable (startRound r j roundNum (some ps) mode count names rounds s0)
  | startFresh (r : Nat → Nat) (j : Nat) (mode : GameMode) (count : Nat)
      (names : List String) (rounds : Nat) (s0 : GameState) :
      (mode = .SINGLE_PLAYER ∨ mode = .MULTIPLAYER) →
      (mode = .MULTIPLAYER → (if 0 < count then count else 4) ≤ 10) →
      Reachable (startRound r j 1 none (some mode) count names rounds s0)
  | toss (ctx : LocalCtx) (s s' : GameState) :
      Reachable s → submitToss ctx s = some s' → Reachable s'
  | dis (ctx : LocalCtx) (s s' : GameState) :
      Reachable s → submitDiscard ctx s = some s' → Reachable s'
  | draw (r : Nat → Nat) (ctx : LocalCtx) (src : DrawSource) (s s' : GameState) :
      Reachable s → submitDraw r ctx src s = some s' → Reachable s'
  | showStep (ctx : LocalCtx) (s s' : GameState) :
      Reachable s → submitShow ctx s = some s' → Reachable s'
  | botTS (s s' : GameState) :
      Reachable s → botTurnStart s = some s' → Reachable s'
  | botDrawStep (r : Nat → Nat) (s s' : GameState) :
      Reachable s → botDraw r s = some s' → Reachable s'
  | advance (r : Nat → Nat) (j : Nat) (ctx : LocalCtx) (s s' : GameState) :
      Reachable s → submitNextRound r j ctx s = some s' → Reachable s'

theorem coe_append (l₁ l₂ : List CardData) :
    ((l₁ ++ l₂ : List CardData) : Multiset CardData) = ↑l₁ + ↑l₂ :=
  (Multiset.coe_add l₁ l₂).symm

theorem handsList_cons (p : Player) (ps : List Player) :
    handsList (p :: ps) = p.hand ++ handsList ps := by
  simp [handsList]

theorem rosterOk_get_id {ps : List Player} (h : RosterOk ps) {i : Nat}
    {p : Player} (hip : ps.get? i = some p) : p.id = Int.ofNat i := by
  have h1 : (ps.map (·.id)).get? i = some p.id := map_get?_some _ hip
  rw [h, List.get?_map] at h1
  have hi : i < ps.length := (List.get?_eq_some.mp hip).1
  rw [List.get?_eq_get (by rwa [List.length_range])] at h1
  simp only [List.get_range, Option.map_some'] at h1
  injection h1 with h1
  exact h1.symm

theorem rosterOk_nodup {ps : List Player} (h : RosterOk ps) :
    (ps.map (·.id)).Nodup := by
  rw [h]
  exact List.Nodup.map (fun a b hab => Int.ofNat.inj hab) (List.nodup_range _)

theorem currentPlayer_get? {s : GameState}
    (h : s.currentPlayerIndex < s.players.length) :
    s.players.get? s.currentPlayerIndex = some (currentPlayer s) := by
  unfold currentPlayer
  rw [List.get?_eq_get h]
  rfl

theorem hand_sublist_handsList {p : Player} :
    ∀ {ps : List Player}, p ∈ ps → p.hand.Sublist (handsList ps) := by
  intro ps
  induction ps with
  | nil => intro h; simp at h
  | cons q t ih =>
    intro h
    rw [handsList_cons]
    rcases List.mem_cons.mp h with h1 | h1
    · exact h1 ▸ List.sublist_append_left _ _
    · exact (ih h1).trans (List.sublist_append_right _ _)

theorem handsList_sublist_cardsList (s : GameState) :
    (handsList s.players).Sublist (cardsList s) := by
  unfold cardsList
  exact ((List.sublist_append_right (s.deck ++ s.openDeck) _).trans
    (List.sublist_append_left _ _)).trans (List.sublist_append_left _ _)

theorem standardDeck_ids_nodup : (standardDeck.map (·.id)).Nodup := by decide

theorem cards_ids_nodup {s : GameState}
    (hbag : (cardsList s).Perm standardDeck) :
    ((cardsList s).map (·.id)).Nodup :=
  ((hbag.map (·.id)).nodup_iff).mpr standardDeck_ids_nodup

theorem hand_ids_nodup {s : GameState} {p : Player}
    (hbag : (cardsList s).Perm standardDeck) (hp : p ∈ s.players) :
    (p.hand.map (·.id)).Nodup :=
  (((hand_sublist_handsList hp).trans (handsList_sublist_cardsList s)).map
    (·.id)).nodup (cards_ids_nodup hbag)

theorem map_players_id (g : Player → Player) (hid : ∀ q, (g q).id = q.id)
    (ps : List Player) : (ps.map g).map (·.id) = ps.map (·.id) := by
  rw [List.map_map]
  exact List.map_congr_left (fun a _ => hid a)

theorem rosterOk_map {ps : List Player} (g : Player → Player)
    (hid : ∀ q, (g q).id = q.id) (hro : RosterOk ps) :
    RosterOk (ps.map g) := by
  unfold RosterOk
  rw [map_players_id g hid, List.length_map]
  exact hro

theorem handsList_map_of_hand_eq (g : Player → Player)
    (hh : ∀ q, (g q).hand = q.hand) (ps : List Player) :
    handsList (ps.map g) = handsList ps := by
  unfold handsList
  rw [List.map_map]
  congr 1
  exact List.map_congr_left (fun a _ => hh a)

theorem handsBag_update {pid : Int} (g : Player → Player)
    (hg : ∀ q, q.id ≠ pid → g q = q) :
    ∀ (ps : List Player) (p : Player), p ∈ ps → p.id = pid →
      (ps.map (·.id)).Nodup →
      (handsList (ps.map g) : Multiset CardData) + ↑p.hand =
        ↑(handsList ps) + ↑((g p).hand) := by
  intro ps
  induction ps with
  | nil => intro p hp _ _; simp at hp
  | cons q t ih =>
    intro p hp hpid hnd
    rw [List.map_cons, List.nodup_cons] at hnd
    rw [List.map_cons, handsList_cons, handsList_cons, coe_append, coe_append]
    rcases List.mem_cons.mp hp with h1 | h1
    · subst h1
      have ht : t.map g = t := by
        have hall : ∀ x ∈ t, g x = x := by
          intro x hx
          apply hg
          intro hxe
          have hmm : x.id ∈ t.map (·.id) := List.mem_map_of_mem (·.id) hx
          rw [hxe, ← hpid] at hmm
          exact hnd.1 hmm
        calc t.map g = t.map id := List.map_congr_left hall
          _ = t := List.map_id t
      rw [ht]
      abel
    · have hq : g q = q := by
        apply hg
        intro he
        have : p.id ∈ t.map (·.id) := List.mem_map_of_mem (·.id) h1
        rw [hpid, ← he] at this
        exact hnd.1 this
      rw [hq, add_assoc, ih p h1 hpid hnd.2, ← add_assoc]

theorem dealHands_cards : ∀ (ps : List Player) (d : List CardData),
    handsList (dealHands ps d).1 ++ (dealHands ps d).2 = d := by
  intro ps
  induction ps with
  | nil =>
    intro d
    simp [dealHands, handsList]
  | cons p t ih =>
    intro d
    show handsList ({ p with hand := d.take 3 } :: (dealHands t (d.drop 3)).1) ++
      (dealHands t (d.drop 3)).2 = d
    rw [handsList_cons]
    show (d.take 3 ++ handsList (dealHands t (d.drop 3)).1) ++
      (dealHands t (d.drop 3)).2 = d
    rw [List.append_assoc, ih (d.drop 3)]
    exact List.take_append_drop 3 d

theorem dealHands_ids : ∀ (ps : List Player) (d : List CardData),
    (dealHands ps d).1.map (·.id) = ps.map (·.id) := by
  intro ps
  induction ps with
  | nil => intro d; rfl
  | cons p t ih =>
    intro d
    show ({ p with hand := d.take 3 } :: (dealHands t (d.drop 3)).1).map (·.id) =
      (p :: t).map (·.id)
    rw [List.map_cons, List.map_cons, ih (d.drop 3)]

theorem dealHands_length : ∀ (ps : List Player) (d : List CardData),
    (dealHands ps d).1.length = ps.length := by
  intro ps
  induction ps with
  | nil => intro d; rfl
  | cons p t ih =>
    intro d
    show ({ p with hand := d.take 3 } :: (dealHands t (d.drop 3)).1).length =
      (p :: t).length
    rw [List.length_cons, List.length_cons, ih (d.drop 3)]

theorem dealHands_hand3 : ∀ (ps : List Player) (d : List CardData),
    3 * ps.length ≤ d.length → ∀ p ∈ (dealHands ps d).1, p.hand.length = 3 := by
  intro ps
  induction ps with
  | nil => intro d _ p hp; simp [dealHands] at hp
  | cons q t ih =>
    intro d hd p hp
    have hp' : p ∈ { q with hand := d.take 3 } :: (dealHands t (d.drop 3)).1 := hp
    rcases List.mem_cons.mp hp' with h1 | h1
    · subst h1
      show (d.take 3).length = 3
      rw [List.length_take]
      simp only [List.length_cons] at hd
      omega
    · refine ih (d.drop 3) ?_ p h1
      rw [List.length_drop]
      simp only [List.length_cons] at hd
      omega

theorem assembled_inv (r : Nat → Nat) (jok : Option CardData)
    (roundNum rounds : Nat) (base : List Player) (startIdx : Nat)
    (gm : Option GameMode) (tl : List String) (s0 : GameState)
    (hro : RosterOk base) (hne : base ≠ []) (h10 : base.length ≤ 10)
    (hidx : startIdx < base.length) :
    Inv { s0 with
      deck := (dealHands base (createDeck r)).2,
      openDeck := [],
      players := (dealHands base (createDeck r)).1,
      currentPlayerIndex := startIdx,
      roundJoker := jok,
      roundNumber := roundNum,
      totalRounds := rounds,
      phase := .PLAYER_TURN_START,
      turnLog := tl,
      lastDiscardedId := none,
      tossedThisTurn := false,
      pendingDiscard := none,
      pendingToss := [],
      gameMode := gm } := by
  have hd := dealHands_cards base (createDeck r)
  have hlen := dealHands_length base (createDeck r)
  constructor
  · show ((dealHands base (createDeck r)).2 ++ [] ++
      handsList (dealHands base (createDeck r)).1 ++ [] ++ []).Perm standardDeck
    rw [List.append_nil, List.append_nil, List.append_nil]
    exact (List.perm_append_comm).trans (by rw [hd]; exact createDeck_perm r)
  · show RosterOk (dealHands base (createDeck r)).1
    unfold RosterOk
    rw [dealHands_ids, hlen]
    exact hro
  · show (dealHands base (createDeck r)).1 ≠ []
    intro hnil
    have := hlen
    rw [hnil] at this
    exact hne (List.eq_nil_of_length_eq_zero this.symm)
  · show startIdx < (dealHands base (createDeck r)).1.length
    rw [hlen]
    exact hidx
  · show (dealHands base (createDeck r)).1.length ≤ 10
    rw [hlen]
    exact h10
  · show (∀ p ∈ (dealHands base (createDeck r)).1,
        1 ≤ p.hand.length ∧ p.hand.length ≤ 3) ∧ ([] : List CardData) = [] ∧
        (none : Option CardData) = none
    refine ⟨?_, rfl, rfl⟩
    intro p hp
    have h3 : p.hand.length = 3 := by
      refine dealHands_hand3 base (createDeck r) ?_ p hp
      rw [createDeck_length]
      omega
    omega

theorem startRound_inv_existing (r : Nat → Nat) (j roundNum count rounds : Nat)
    (ps : List Player) (mode : Option GameMode) (names : List String)
    (s0 : GameState) (hro : RosterOk ps) (hne : ps ≠ []) (h10 : ps.length ≤ 10) :
    Inv (startRound r j roundNum (some ps) mode count names rounds s0) := by
  obtain ⟨startIdx, hsi, hlt⟩ : ∃ si,
      (match ps.find? (·.wasCaller) with
        | some c => c.id.toNat
        | none => 0) = si ∧ si < ps.length := by
    cases hc : ps.find? (·.wasCaller) with
    | none => exact ⟨0, rfl, List.length_pos.mpr hne⟩
    | some c =>
      refine ⟨c.id.toNat, rfl, ?_⟩
      have hcm : c.id ∈ ps.map (·.id) :=
        List.mem_map_of_mem (·.id) (List.mem_of_find?_eq_some hc)
      rw [hro] at hcm
      obtain ⟨k, hk, hke⟩ := List.mem_map.mp hcm
      rw [← hke]
      simpa using List.mem_range.mp hk
  simp only [startRound]
  rw [hsi]
  refine assembled_inv r _ roundNum rounds _ startIdx _ _ s0 ?_ ?_ ?_ ?_
  · exact rosterOk_map _ (fun q => rfl) hro
  · simpa using hne
  · simpa using h10
  · simpa using hlt

theorem startRound_inv_fresh (r : Nat → Nat) (j count rounds : Nat)
    (mode : GameMode) (names : List String) (s0 : GameState)
    (hmode : mode = .SINGLE_PLAYER ∨ mode = .MULTIPLAYER)
    (hcount : mode = .MULTIPLAYER → (if 0 < count then count else 4) ≤ 10) :
    Inv (startRound r j 1 none (some mode) count names rounds s0) := by
  have hfresh : RosterOk (freshPlayers (some mode) count names) ∧
      freshPlayers (some mode) count names ≠ [] ∧
      (freshPlayers (some mode) count names).length ≤ 10 := by
    rcases hmode with hm | hm
    · subst hm
      refine ⟨?_, by simp [freshPlayers], by simp [freshPlayers]⟩
      rfl
    · subst hm
      have h4 : (freshPlayers (some .MULTIPLAYER) count names) =
          (List.range (if 0 < count then count else 4)).map
            (fun i => mkPlayer i (names.getD i "Player") false) := rfl
      refine ⟨?_, ?_, ?_⟩
      · unfold RosterOk
        rw [h4, List.map_map, List.length_map, List.length_range]
        exact List.map_congr_left (fun a _ => rfl)
      · rw [h4]
        intro hnil
        have hlen := congrArg List.length hnil
        rw [List.length_map, List.length_range, List.length_nil] at hlen
        by_cases hc : 0 < count
        · rw [if_pos hc] at hlen
          omega
        · rw [if_neg hc] at hlen
          omega
      · rw [h4, List.length_map, List.length_range]
        exact hcount rfl
  simp only [startRound]
  refine assembled_inv r _ 1 rounds _ 0 _ _ s0 hfresh.1 hfresh.2.1 hfresh.2.2 ?_
  · exact List.length_pos.mpr hfresh.2.1

theorem inv_current_mem {s : GameState} (hinv : Inv s) :
    currentPlayer s ∈ s.players :=
  List.get?_mem (currentPlayer_get? hinv.idxlt)

theorem inv_current_id {s : GameState} (hinv : Inv s) :
    (currentPlayer s).id = Int.ofNat s.currentPlayerIndex :=
  rosterOk_get_id hinv.roster (currentPlayer_get? hinv.idxlt)

theorem handSizes_turnStart {s : GameState}
    (hph : s.phase = .PLAYER_TURN_START) (hh : HandSizes s) :
    (∀ p ∈ s.players, 1 ≤ p.hand.length ∧ p.hand.length ≤ 3) ∧
      s.pendingToss = [] ∧ s.pendingDiscard = none := by
  unfold HandSizes at hh
  rw [hph] at hh
  exact hh

theorem handSizes_tossing {s : GameState}
    (hph : s.phase = .PLAYER_TOSSING_DRAW) (hh : HandSizes s) :
    othersHandsOk s.players s.currentPlayerIndex ∧
      (currentPlayer s).hand.length ≤ 1 := by
  unfold HandSizes at hh
  rw [hph] at hh
  exact hh

theorem handSizes_draw {s : GameState}
    (hph : s.phase = .PLAYER_DRAW) (hh : HandSizes s) :
    othersHandsOk s.players s.currentPlayerIndex ∧
      (currentPlayer s).hand.length ≤ 2 := by
  unfold HandSizes at hh
  rw [hph] at hh
  exact hh

theorem othersOk_map {s : GameState} (hinv : Inv s) (upd : Player → Player)
    (hall : ∀ i q, s.players.get? i = some q → i ≠ s.currentPlayerIndex →
      1 ≤ q.hand.length ∧ q.hand.length ≤ 3) :
    othersHandsOk (s.players.map (fun pl =>
      if pl.id = (currentPlayer s).id then upd pl else pl))
      s.currentPlayerIndex := by
  intro i q' hq' hne
  cases hqo : s.players.get? i with
  | none =>
    rw [List.get?_map, hqo] at hq'
    exact absurd hq' (by simp)
  | some qOld =>
    rw [map_get?_some _ hqo] at hq'
    injection hq' with hq'
    have hqid : qOld.id = Int.ofNat i := rosterOk_get_id hinv.roster hqo
    have hcond : ¬ (qOld.id = (currentPlayer s).id) := by
      rw [hqid, inv_current_id hinv]
      exact fun hh => hne (Int.ofNat.inj hh)
    rw [← hq', if_neg hcond]
    exact hall i qOld hqo hne

theorem upd_players_get?_current {s : GameState} (hinv : Inv s)
    (upd : Player → Player) :
    (s.players.map (fun pl =>
      if pl.id = (currentPlayer s).id then upd pl else pl)).get?
        s.currentPlayerIndex = some (upd (currentPlayer s)) := by
  rw [map_get?_some _ (currentPlayer_get? hinv.idxlt), if_pos rfl]

theorem roster_map_upd {s : GameState} (hinv : Inv s) (upd : Player → Player)
    (hid : ∀ q, (upd q).id = q.id) :
    RosterOk (s.players.map (fun pl =>
      if pl.id = (currentPlayer s).id then upd pl else pl)) := by
  refine rosterOk_map _ ?_ hinv.roster
  intro q
  by_cases hq : q.id = (currentPlayer s).id
  · rw [if_pos hq]
    exact hid q
  · rw [if_neg hq]

theorem filter_contains_length_le (sel : List String) (l : List CardData)
    (hnd : (l.map (·.id)).Nodup) :
    (l.filter (fun c => sel.contains c.id)).length ≤ sel.length := by
  have h1 : ((l.filter (fun c => sel.contains c.id)).map (·.id)).Nodup :=
    ((l.filter_sublist).map (·.id)).nodup hnd
  have h2 : (l.filter (fun c => sel.contains c.id)).map (·.id) ⊆ sel := by
    intro x hx
    obtain ⟨c, hc, hcx⟩ := List.mem_map.mp hx
    have hcontains := List.of_mem_filter hc
    rw [← hcx]
    exact List.elem_iff.mp hcontains
  calc (l.filter (fun c => sel.contains c.id)).length
      = ((l.filter (fun c => sel.contains c.id)).map (·.id)).length :=
        (List.length_map _ _).symm
    _ ≤ sel.length := (h1.subperm h2).length_le

theorem filter_split_length (p : CardData → Bool) (l : List CardData) :
    (l.filter p).length + (l.filter (fun x => !p x)).length = l.length := by
  have := (List.filter_append_perm p l).length_eq
  rw [List.length_append] at this
  exact this

theorem filter_split_bag (p : CardData → Bool) (l : List CardData) :
    (↑(l.filter p) : Multiset CardData) + ↑(l.filter (fun x => !p x)) = ↑l := by
  rw [← coe_append]
  exact Multiset.coe_eq_coe.mpr (List.filter_append_perm p l)

theorem two_le_of_get?_one {l : List CardData} {c : CardData}
    (h : l.get? 1 = some c) : 2 ≤ l.length :=
  (List.get?_eq_some.mp h).1

theorem submitToss_inv {ctx : LocalCtx} {s s' : GameState} (hinv : Inv s)
    (h : submitToss ctx s = some s') : Inv s' := by
  unfold submitToss at h
  split at h
  case isFalse => exact absurd h (by simp)
  case isTrue hguard =>
  simp only [Bool.and_eq_true, beq_iff_eq] at hguard
  have hph : s.phase = .PLAYER_TURN_START := hguard.1.1.2
  have hsel2 : ctx.selected.length = 2 := hguard.1.2
  obtain ⟨hall, hpt, hpd⟩ := handSizes_turnStart hph hinv.hands
  unfold handleToss at h
  split at h
  · exact absurd h (by simp)
  · split at h
    · exact absurd h (by simp)
    · dsimp only at h
      split at h
      case _ c0 c1 hg0 hg1 =>
        split at h
        · exact absurd h (by simp)
        · injection h with h
          subst h
          have hpm := inv_current_mem hinv
          have hhnd : ((currentPlayer s).hand.map (·.id)).Nodup :=
            hand_ids_nodup hinv.bag hpm
          have hcards_le : ((currentPlayer s).hand.filter
              (fun c => ctx.selected.contains c.id)).length ≤ 2 := by
            have := filter_contains_length_le ctx.selected
              (currentPlayer s).hand hhnd
            rwa [hsel2] at this
          have hcards_ge : 2 ≤ ((currentPlayer s).hand.filter
              (fun c => ctx.selected.contains c.id)).length :=
            two_le_of_get?_one hg1
          have hhand3 := hall (currentPlayer s) hpm
          have hsplit := filter_split_length
            (fun c => ctx.selected.contains c.id) (currentPlayer s).hand
          have hg : ∀ q : Player, q.id ≠ (currentPlayer s).id →
              (if q.id = (currentPlayer s).id then
                { q with
                  hand := (currentPlayer s).hand.filter
                    (fun c => !ctx.selected.contains c.id),
                  lastAction := "Tossed " ++ c0.rank.str ++ "s" }
              else q) = q := fun q hq => if_neg hq
          have hH := handsBag_update _ hg s.players (currentPlayer s) hpm rfl
            (rosterOk_nodup hinv.roster)
          rw [if_pos rfl] at hH
          constructor
          · -- card bag preserved
            refine List.Perm.trans ?_ hinv.bag
            rw [← Multiset.coe_eq_coe]
            show (↑(s.deck ++ s.openDeck ++
              handsList (s.players.map (fun pl =>
                if pl.id = (currentPlayer s).id then
                  { pl with
                    hand := (currentPlayer s).hand.filter
                      (fun c => !ctx.selected.contains c.id),
                    lastAction := "Tossed " ++ c0.rank.str ++ "s" }
                else pl)) ++
              (currentPlayer s).hand.filter (fun c => ctx.selected.contains c.id) ++
              pendingDiscardList s) : Multiset CardData) = ↑(cardsList s)
            unfold cardsList pendingDiscardList
            rw [hpd, hpt]
            simp only [coe_append, List.append_nil, Multiset.coe_nil, add_zero]
            have key : (↑(handsList (s.players.map (fun pl =>
                if pl.id = (currentPlayer s).id then
                  { pl with
                    hand := (currentPlayer s).hand.filter
                      (fun c => !ctx.selected.contains c.id),
                    lastAction := "Tossed " ++ c0.rank.str ++ "s" }
                else pl))) : Multiset CardData) +
                ↑((currentPlayer s).hand.filter
                  (fun c => ctx.selected.contains c.id)) =
                ↑(handsList s.players) := by
              apply add_right_cancel
                (b := (↑((currentPlayer s).hand.filter
                  (fun c => !ctx.selected.contains c.id)) : Multiset CardData))
              rw [add_assoc, filter_split_bag, hH]
            rw [add_assoc, key]
          · exact roster_map_upd hinv _ (fun q => rfl)
          · simpa using hinv.nonempty
          · show s.currentPlayerIndex < (s.players.map _).length
            rw [List.length_map]
            exact hinv.idxlt
          · show (s.players.map _).length ≤ 10
            rw [List.length_map]
            exact hinv.size10
          · constructor
            · exact othersOk_map hinv _
                (fun i q hq _ => hall q (List.get?_mem hq))
            · show ((((s.players.map (fun pl =>
                if pl.id = (currentPlayer s).id then
                  { pl with
                    hand := (currentPlayer s).hand.filter
                      (fun c => !ctx.selected.contains c.id),
                    lastAction := "Tossed " ++ c0.rank.str ++ "s" }
                else pl)).get? s.currentPlayerIndex).getD
                  dummyPlayer).hand.length) ≤ 1
              rw [upd_players_get?_current hinv]
              simp only [Option.getD_some]
              show ((currentPlayer s).hand.filter
                (fun c => !ctx.selected.contains c.id)).length ≤ 1
              omega
      case _ => exact absurd h (by simp)

theorem find_remove_perm : ∀ (l : List CardData) (x : String) (cd : CardData),
    (l.map (·.id)).Nodup → l.find? (fun c => c.id = x) = some cd →
    (cd :: l.filter (fun c => !(c.id = x : Bool))).Perm l := by
  intro l
  induction l with
  | nil => intro x cd _ hf; simp at hf
  | cons a t ih =>
    intro x cd hnd hf
    rw [List.map_cons, List.nodup_cons] at hnd
    by_cases ha : a.id = x
    · rw [List.find?_cons_of_pos _ (by simp [ha])] at hf
      injection hf with hf
      subst hf
      have ht : t.filter (fun c => !(c.id = x : Bool)) = t := by
        rw [List.filter_eq_self]
        intro c hc
        simp only [Bool.not_eq_true', decide_eq_false_iff_not]
        intro hcx
        exact hnd.1 (by rw [ha, ← hcx]; exact List.mem_map_of_mem (·.id) hc)
      rw [List.filter_cons_of_neg (by simp [ha]), ht]
    · rw [List.find?_cons_of_neg _ (by simp [ha])] at hf
      rw [List.filter_cons_of_pos (by simp [ha])]
      exact (List.Perm.swap a cd _).trans ((ih x cd hnd.2 hf).cons a)

theorem getLast?_dropLast_append {l : List CardData} {top : CardData}
    (h : l.getLast? = some top) : l.dropLast ++ [top] = l := by
  have hne : l ≠ [] := by
    intro he
    rw [he] at h
    exact absurd h (by simp)
  rw [List.getLast?_eq_getLast l hne] at h
  injection h with h
  rw [← h]
  exact List.dropLast_concat_getLast hne

/-- Common shape of every end-of-turn transition (human `finishTurn` and the
bot draw): the active hand gains the drawn card, the piles are rearranged
without gaining or losing cards, the seat advances circularly, and the phase
returns to `PLAYER_TURN_START`. -/
theorem stepEnd_inv {s : GameState} (hinv : Inv s) (upd : Player → Player)
    (drawn : CardData) (D O : List CardData) (tl : List String)
    (hid : ∀ q, (upd q).id = q.id)
    (hhand : (upd (currentPlayer s)).hand = (currentPlayer s).hand ++ [drawn])
    (hcur : (currentPlayer s).hand.length ≤ 2)
    (hothers : othersHandsOk s.players s.currentPlayerIndex)
    (hbag : (↑D + ↑O + ↑[drawn] : Multiset CardData) =
      ↑s.deck + ↑s.openDeck + ↑s.pendingToss + ↑(pendingDiscardList s)) :
    Inv { s with
      players := s.players.map (fun pl =>
        if pl.id = (currentPlayer s).id then upd pl else pl),
      openDeck := O,
      deck := D,
      currentPlayerIndex := (s.currentPlayerIndex + 1) % s.players.length,
      phase := .PLAYER_TURN_START,
      turnLog := tl,
      lastDiscardedId := none,
      tossedThisTurn := false,
      pendingDiscard := none,
      pendingToss := [] } := by
  have hpm := inv_current_mem hinv
  have hg : ∀ q : Player, q.id ≠ (currentPlayer s).id →
      (if q.id = (currentPlayer s).id then upd q else q) = q :=
    fun q hq => if_neg hq
  have hH := handsBag_update _ hg s.players (currentPlayer s) hpm rfl
    (rosterOk_nodup hinv.roster)
  rw [if_pos rfl] at hH
  have hlenpos : 0 < s.players.length := List.length_pos.mpr hinv.nonempty
  constructor
  · -- bag
    refine List.Perm.trans ?_ hinv.bag
    show (D ++ O ++ handsList (s.players.map (fun (pl : Player) =>
        if pl.id = (currentPlayer s).id then upd pl else pl)) ++ [] ++ []).Perm
      (cardsList s)
    rw [← Multiset.coe_eq_coe]
    unfold cardsList
    simp only [coe_append, List.append_nil, Multiset.coe_nil, add_zero]
    have key : (↑(handsList (s.players.map (fun pl =>
        if pl.id = (currentPlayer s).id then upd pl else pl))) :
          Multiset CardData) =
        ↑(handsList s.players) + ↑[drawn] := by
      apply add_right_cancel
        (b := (↑(currentPlayer s).hand : Multiset CardData))
      rw [hH, hhand, coe_append]
      abel
    rw [key]
    calc (↑D + ↑O + (↑(handsList s.players) + ↑[drawn]) : Multiset CardData)
        = ↑D + ↑O + ↑[drawn] + ↑(handsList s.players) := by abel
      _ = ↑s.deck + ↑s.openDeck + ↑s.pendingToss + ↑(pendingDiscardList s) +
          ↑(handsList s.players) := by rw [hbag]
      _ = ↑s.deck + ↑s.openDeck + ↑(handsList s.players) + ↑s.pendingToss +
          ↑(pendingDiscardList s) := by abel
  · exact roster_map_upd hinv _ hid
  · simpa using hinv.nonempty
  · show (s.currentPlayerIndex + 1) % s.players.length <
      (s.players.map _).length
    rw [List.length_map]
    exact Nat.mod_lt _ hlenpos
  · show (s.players.map _).length ≤ 10
    rw [List.length_map]
    exact hinv.size10
  · refine ⟨?_, rfl, rfl⟩
    intro q hq
    obtain ⟨i, hqi⟩ := List.mem_iff_get?.mp hq
    by_cases hidx : i = s.currentPlayerIndex
    · subst hidx
      rw [upd_players_get?_current hinv] at hqi
      injection hqi with hqi
      rw [← hqi, hhand, List.length_append]
      have h1 := hinv.idxlt
      simp only [List.length_cons, List.length_nil]
      omega
    · cases hqo : s.players.get? i with
      | none =>
        rw [List.get?_map, hqo] at hqi
        exact absurd hqi (by simp)
      | some qOld =>
        rw [map_get?_some _ hqo] at hqi
        injection hqi with hqi
        have hqid : qOld.id = Int.ofNat i := rosterOk_get_id hinv.roster hqo
        have hcond : ¬ (qOld.id = (currentPlayer s).id) := by
          rw [hqid, inv_current_id hinv]
          exact fun hh => hidx (Int.ofNat.inj hh)
        rw [← hqi, if_neg hcond]
        exact hothers i qOld hqo hidx

/-- Common shape of both discard transitions (human `handleDiscard` and the
bot's discard branch): the found card moves from the active hand to
`pendingDiscard`, the no-reclaim marker is set, and the phase becomes
`PLAYER_DRAW`. -/
theorem discardStep_inv {s : GameState} (hinv : Inv s)
    (hph : s.phase = .PLAYER_TURN_START) (upd : Player → Player)
    (cd : CardData) (x : String) (tl : List String)
    (hid : ∀ q, (upd q).id = q.id)
    (hfind : (currentPlayer s).hand.find? (fun c => c.id = x) = some cd)
    (hhand : (upd (currentPlayer s)).hand =
      (currentPlayer s).hand.filter (fun c => !(c.id = x : Bool))) :
    Inv { s with
      players := s.players.map (fun (pl : Player) =>
        if pl.id = (currentPlayer s).id then upd pl else pl),
      pendingDiscard := some cd,
      lastDiscardedId := some cd.id,
      phase := .PLAYER_DRAW,
      turnLog := tl } := by
  obtain ⟨hall, hpt, hpd⟩ := handSizes_turnStart hph hinv.hands
  have hpm := inv_current_mem hinv
  have hhnd := hand_ids_nodup hinv.bag hpm
  have hperm := find_remove_perm _ x cd hhnd hfind
  have hg : ∀ q : Player, q.id ≠ (currentPlayer s).id →
      (if q.id = (currentPlayer s).id then upd q else q) = q :=
    fun q hq => if_neg hq
  have hH := handsBag_update _ hg s.players (currentPlayer s) hpm rfl
    (rosterOk_nodup hinv.roster)
  rw [if_pos rfl] at hH
  constructor
  · refine List.Perm.trans ?_ hinv.bag
    rw [← Multiset.coe_eq_coe]
    show (↑(s.deck ++ s.openDeck ++
      handsList (s.players.map (fun (pl : Player) =>
        if pl.id = (currentPlayer s).id then upd pl else pl)) ++
      s.pendingToss ++ [cd]) : Multiset CardData) = ↑(cardsList s)
    unfold cardsList pendingDiscardList
    rw [hpd, hpt]
    simp only [coe_append, List.append_nil, Multiset.coe_nil, add_zero]
    have hsplit2 : (↑[cd] : Multiset CardData) +
        ↑((currentPlayer s).hand.filter (fun c => !(c.id = x : Bool))) =
        ↑(currentPlayer s).hand := by
      rw [← coe_append]
      exact Multiset.coe_eq_coe.mpr hperm
    have key : (↑(handsList (s.players.map (fun (pl : Player) =>
        if pl.id = (currentPlayer s).id then upd pl else pl))) :
          Multiset CardData) + ↑[cd] = ↑(handsList s.players) := by
      apply add_right_cancel
        (b := (↑((currentPlayer s).hand.filter
          (fun c => !(c.id = x : Bool))) : Multiset CardData))
      rw [add_assoc, hsplit2, hH, hhand]
    rw [add_assoc, key]
  · exact roster_map_upd hinv _ hid
  · simpa using hinv.nonempty
  · show s.currentPlayerIndex < (s.players.map _).length
    rw [List.length_map]
    exact hinv.idxlt
  · show (s.players.map _).length ≤ 10
    rw [List.length_map]
    exact hinv.size10
  · constructor
    · exact othersOk_map hinv _
        (fun i q hq _ => hall q (List.get?_mem hq))
    · show ((((s.players.map (fun (pl : Player) =>
        if pl.id = (currentPlayer s).id then upd pl else pl)).get?
          s.currentPlayerIndex).getD dummyPlayer).hand.length) ≤ 2
      rw [upd_players_get?_current hinv]
      simp only [Option.getD_some]
      rw [hhand]
      have hsplit := filter_split_length (fun c => (c.id = x : Bool))
        (currentPlayer s).hand
      have hpred0 := List.find?_some hfind
      have hpred : decide (cd.id = x) = true := hpred0
      have hmem : cd ∈ (currentPlayer s).hand.filter
          (fun c => (c.id = x : Bool)) :=
        List.mem_filter.mpr ⟨List.mem_of_find?_eq_some hfind, hpred⟩
      have hpos : 0 < ((currentPlayer s).hand.filter
          (fun c => (c.id = x : Bool))).length :=
        List.length_pos.mpr (List.ne_nil_of_mem hmem)
      have hhand3 := hall (currentPlayer s) hpm
      omega

/-- Common shape of both SHOW transitions (human `handleShow` and the bot's
show branch): hands and piles are untouched, only scores and flags change,
and the phase becomes `ROUND_END`. -/
theorem mapKeepHand_roundEnd_inv {s : GameState} (hinv : Inv s)
    (g : Player → Player) (tl : List String)
    (hid : ∀ q, (g q).id = q.id) (hhand : ∀ q, (g q).hand = q.hand) :
    Inv { s with
      players := s.players.map g,
      phase := .ROUND_END,
      turnLog := tl } := by
  constructor
  · show (s.deck ++ s.openDeck ++ handsList (s.players.map g) ++
      s.pendingToss ++ pendingDiscardList s).Perm standardDeck
    rw [handsList_map_of_hand_eq g hhand]
    exact hinv.bag
  · exact rosterOk_map g hid hinv.roster
  · simpa using hinv.nonempty
  · show s.currentPlayerIndex < (s.players.map g).length
    rw [List.length_map]
    exact hinv.idxlt
  · show (s.players.map g).length ≤ 10
    rw [List.length_map]
    exact hinv.size10
  · exact trivial

/-- Common shape of both toss transitions (human `handleToss` and the bot's
toss branch): the selected cards move from the active hand to `pendingToss`
and the phase becomes `PLAYER_TOSSING_DRAW`. -/
theorem tossStep_inv {s : GameState} (hinv : Inv s)
    (hph : s.phase = .PLAYER_TURN_START) (upd : Player → Player)
    (sel : List String) (tl : List String)
    (hid : ∀ q, (upd q).id = q.id)
    (hhand : (upd (currentPlayer s)).hand =
      (currentPlayer s).hand.filter (fun c => !sel.contains c.id))
    (hcnt : 2 ≤ ((currentPlayer s).hand.filter
      (fun c => sel.contains c.id)).length) :
    Inv { s with
      players := s.players.map (fun (pl : Player) =>
        if pl.id = (currentPlayer s).id then upd pl else pl),
      pendingToss := (currentPlayer s).hand.filter
        (fun c => sel.contains c.id),
      phase := .PLAYER_TOSSING_DRAW,
      tossedThisTurn := true,
      turnLog := tl } := by
  obtain ⟨hall, hpt, hpd⟩ := handSizes_turnStart hph hinv.hands
  have hpm := inv_current_mem hinv
  have hsplit := filter_split_length (fun c => sel.contains c.id)
    (currentPlayer s).hand
  have hhand3 := hall (currentPlayer s) hpm
  have hg : ∀ q : Player, q.id ≠ (currentPlayer s).id →
      (if q.id = (currentPlayer s).id then upd q else q) = q :=
    fun q hq => if_neg hq
  have hH := handsBag_update _ hg s.players (currentPlayer s) hpm rfl
    (rosterOk_nodup hinv.roster)
  rw [if_pos rfl] at hH
  constructor
  · refine List.Perm.trans ?_ hinv.bag
    rw [← Multiset.coe_eq_coe]
    show (↑(s.deck ++ s.openDeck ++
      handsList (s.players.map (fun (pl : Player) =>
        if pl.id = (currentPlayer s).id then upd pl else pl)) ++
      (currentPlayer s).hand.filter (fun c => sel.contains c.id) ++
      pendingDiscardList s) : Multiset CardData) = ↑(cardsList s)
    unfold cardsList pendingDiscardList
    rw [hpd, hpt]
    simp only [coe_append, List.append_nil, Multiset.coe_nil, add_zero]
    have key : (↑(handsList (s.players.map (fun (pl : Player) =>
        if pl.id = (currentPlayer s).id then upd pl else pl))) :
          Multiset CardData) +
        ↑((currentPlayer s).hand.filter (fun c => sel.contains c.id)) =
        ↑(handsList s.players) := by
      apply add_right_cancel
        (b := (↑((currentPlayer s).hand.filter
          (fun c => !sel.contains c.id)) : Multiset CardData))
      rw [add_assoc, filter_split_bag, hH, hhand]
    rw [add_assoc, key]
  · exact roster_map_upd hinv _ hid
  · simpa using hinv.nonempty
  · show s.currentPlayerIndex < (s.players.map _).length
    rw [List.length_map]
    exact hinv.idxlt
  · show (s.players.map _).length ≤ 10
    rw [List.length_map]
    exact hinv.size10
  · constructor
    · exact othersOk_map hinv _
        (fun i q hq _ => hall q (List.get?_mem hq))
    · show ((((s.players.map (fun (pl : Player) =>
        if pl.id = (currentPlayer s).id then upd pl else pl)).get?
          s.currentPlayerIndex).getD dummyPlayer).hand.length) ≤ 1
      rw [upd_players_get?_current hinv]
      simp only [Option.getD_some]
      rw [hhand]
      omega

theorem submitDiscard_inv {ctx : LocalCtx} {s s' : GameState} (hinv : Inv s)
    (h : submitDiscard ctx s = some s') : Inv s' := by
  unfold submitDiscard at h
  split at h
  case isFalse => exact absurd h (by simp)
  case isTrue hguard =>
  simp only [Bool.and_eq_true, beq_iff_eq] at hguard
  have hph : s.phase = .PLAYER_TURN_START := hguard.1.2
  unfold handleDiscard at h
  split at h
  · exact absurd h (by simp)
  · dsimp only at h
    split at h
    case _ => exact absurd h (by simp)
    case _ sel0 hg0 =>
      split at h
      case _ => exact absurd h (by simp)
      case _ cd hfind =>
        injection h with h
        subst h
        exact discardStep_inv hinv hph
          (fun pl => { pl with
            hand := (currentPlayer s).hand.filter
              (fun c => !(c.id = sel0 : Bool)),
            lastAction := "Discarded " ++ cd.rank.str })
          cd sel0 _ (fun q => rfl) hfind rfl

theorem submitShow_inv {ctx : LocalCtx} {s s' : GameState} (hinv : Inv s)
    (h : submitShow ctx s = some s') : Inv s' := by
  unfold submitShow at h
  split at h
  case isFalse => exact absurd h (by simp)
  case isTrue hguard =>
  injection h with h
  subst h
  unfold handleShow
  dsimp only
  exact mapKeepHand_roundEnd_inv hinv _ _ (fun q => rfl) (fun q => rfl)

theorem submitDraw_inv {r : Nat → Nat} {ctx : LocalCtx} {src : DrawSource}
    {s s' : GameState} (hinv : Inv s)
    (h : submitDraw r ctx src s = some s') : Inv s' := by
  unfold submitDraw at h
  split at h
  case isFalse => exact absurd h (by simp)
  case isTrue hguard =>
  simp only [Bool.and_eq_true, Bool.or_eq_true, beq_iff_eq] at hguard
  have hph : s.phase = .PLAYER_DRAW ∨ s.phase = .PLAYER_TOSSING_DRAW :=
    hguard.1.2
  have hcur : (currentPlayer s).hand.length ≤ 2 := by
    rcases hph with hph | hph
    · exact (handSizes_draw hph hinv.hands).2
    · have := (handSizes_tossing hph hinv.hands).2
      omega
  have hothers : othersHandsOk s.players s.currentPlayerIndex := by
    rcases hph with hph | hph
    · exact (handSizes_draw hph hinv.hands).1
    · exact (handSizes_tossing hph hinv.hands).1
  unfold handleDraw at h
  cases src with
  | OPEN =>
    dsimp only at h
    split at h
    · exact absurd h (by simp)
    · split at h
      case _ => exact absurd h (by simp)
      case _ drawn hlast =>
        injection h with h
        subst h
        unfold finishTurn
        refine stepEnd_inv hinv
          (fun pl => { pl with
            hand := (currentPlayer s).hand ++ [drawn],
            lastAction := "Ended Turn" })
          drawn s.deck
          (s.openDeck.dropLast ++ s.pendingToss ++ pendingDiscardList s)
          (s.turnLog ++ ["Drew from Open Pile"])
          (fun q => rfl) rfl hcur hothers ?_
        have ho : (↑s.openDeck : Multiset CardData) =
            ↑s.openDeck.dropLast + ↑[drawn] := by
          rw [← coe_append, getLast?_dropLast_append hlast]
        simp only [coe_append]
        rw [ho]
        abel
  | DECK =>
    have hdl : 0 < s.deck.length := by simpa using hguard.2
    dsimp only at h
    split at h
    case _ hdeck =>
      rw [hdeck] at hdl
      exact absurd hdl (by simp)
    case _ drawn deckRest hdeck =>
      injection h with h
      subst h
      unfold finishTurn
      refine stepEnd_inv hinv
        (fun pl => { pl with
          hand := (currentPlayer s).hand ++ [drawn],
          lastAction := "Ended Turn" })
        drawn deckRest
        (s.openDeck ++ s.pendingToss ++ pendingDiscardList s)
        (s.turnLog ++ ["Drew from Deck"])
        (fun q => rfl) rfl hcur hothers ?_
      have hd : (↑s.deck : Multiset CardData) = ↑[drawn] + ↑deckRest := by
        rw [hdeck]
        exact coe_append [drawn] deckRest
      simp only [coe_append]
      rw [hd]
      abel

/-- A toss decision always names the two ids of the head of some rank group
of the hand. -/
theorem decideBot_toss_shape {p : Player} {joker : Option CardData}
    {tossed : Bool} {ids : List String}
    (h : decideBotAction p joker tossed = .toss ids) :
    ∃ rk a b tl, p.hand.filter (·.rank = rk) = a :: b :: tl ∧
      ids = [a.id, b.id] := by
  unfold decideBotAction at h
  dsimp only at h
  split at h
  case _ act hact =>
    subst h
    split at hact
    · exact absurd hact (by simp)
    · split at hact
      case _ g hfind =>
        split at hact
        case _ a b tl2 hg2 =>
          injection hact with hact
          injection hact with hact
          have hgm := List.mem_of_find?_eq_some hfind
          obtain ⟨rk, hrkm, hrke⟩ := List.mem_map.mp hgm
          refine ⟨rk, a, b, tl2, ?_, hact.symm⟩
          rw [← hrke] at hg2
          exact hg2
        case _ => exact absurd hact (by simp)
      case _ => exact absurd hact (by simp)
  case _ hnone =>
    split at h
    · exact absurd h (by simp)
    · split at h
      · exact absurd h (by simp)
      · exact absurd h (by simp)

theorem two_distinct_mem_le_length {l : List CardData} {a b : CardData}
    (_hnd : (l.map (·.id)).Nodup) (ha : a ∈ l) (hb : b ∈ l)
    (hab : a.id ≠ b.id) : 2 ≤ l.length := by
  have hsub : [a.id, b.id] ⊆ l.map (·.id) := by
    intro x hx
    rcases List.mem_cons.mp hx with h1 | h1
    · subst h1
      exact List.mem_map_of_mem (·.id) ha
    · rcases List.mem_cons.mp h1 with h2 | h2
      · subst h2
        exact List.mem_map_of_mem (·.id) hb
      · exact absurd h2 (by simp)
  have hnd2 : ([a.id, b.id]).Nodup := by simp [hab]
  have hle := (hnd2.subperm hsub).length_le
  rw [List.length_map] at hle
  simpa using hle

theorem botTurnStart_inv {s s' : GameState} (hinv : Inv s)
    (h : botTurnStart s = some s') : Inv s' := by
  unfold botTurnStart at h
  split at h
  case isFalse => exact absurd h (by simp)
  case isTrue hguard =>
  simp only [Bool.and_eq_true, beq_iff_eq] at hguard
  have hph : s.phase = .PLAYER_TURN_START := hguard.2
  dsimp only at h
  split at h
  case _ hact =>
    injection h with h
    subst h
    exact mapKeepHand_roundEnd_inv hinv _ _ (fun q => rfl) (fun q => rfl)
  case _ ids hact =>
    injection h with h
    subst h
    obtain ⟨rk, a, b, tl2, hfl, hids⟩ := decideBot_toss_shape hact
    subst hids
    have hpm := inv_current_mem hinv
    have hhnd := hand_ids_nodup hinv.bag hpm
    have ham : a ∈ (currentPlayer s).hand := by
      refine List.mem_of_mem_filter (p := (·.rank = rk)) ?_
      rw [hfl]
      exact List.mem_cons_self _ _
    have hbm : b ∈ (currentPlayer s).hand := by
      refine List.mem_of_mem_filter (p := (·.rank = rk)) ?_
      rw [hfl]
      exact List.mem_cons_of_mem _ (List.mem_cons_self _ _)
    have hfnd : (((currentPlayer s).hand.filter
        (·.rank = rk)).map (·.id)).Nodup :=
      (((currentPlayer s).hand.filter_sublist).map (·.id)).nodup hhnd
    have hab : a.id ≠ b.id := by
      rw [hfl, List.map_cons, List.map_cons] at hfnd
      have h1 := (List.nodup_cons.mp hfnd).1
      intro he
      apply h1
      rw [he]
      exact List.mem_cons_self _ _
    have htnd : (((currentPlayer s).hand.filter
        (fun c => [a.id, b.id].contains c.id)).map (·.id)).Nodup :=
      (((currentPlayer s).hand.filter_sublist).map (·.id)).nodup hhnd
    have hamem : a ∈ (currentPlayer s).hand.filter
        (fun c => [a.id, b.id].contains c.id) :=
      List.mem_filter.mpr ⟨ham, by simp⟩
    have hbmem : b ∈ (currentPlayer s).hand.filter
        (fun c => [a.id, b.id].contains c.id) :=
      List.mem_filter.mpr ⟨hbm, by simp⟩
    have hge := two_distinct_mem_le_length htnd hamem hbmem hab
    exact tossStep_inv hinv hph
      (fun pl => { pl with
        hand := (currentPlayer s).hand.filter
          (fun c => !([a.id, b.id].contains c.id)) })
      [a.id, b.id] s.turnLog (fun q => rfl) rfl hge
  case _ ids hact =>
    split at h
    case _ => exact absurd h (by simp)
    case _ cid hg0 =>
      split at h
      case _ => exact absurd h (by simp)
      case _ cd hfind =>
        injection h with h
        subst h
        have hcid0 := List.find?_some hfind
        have hcid : cd.id = cid := by simpa using hcid0
        rw [← hcid] at hfind
        exact discardStep_inv hinv hph
          (fun pl => { pl with
            hand := (currentPlayer s).hand.filter
              (fun c => !(c.id = cd.id : Bool)) })
          cd cd.id s.turnLog (fun q => rfl) hfind rfl

theorem botDraw_inv {r : Nat → Nat} {s s' : GameState} (hinv : Inv s)
    (h : botDraw r s = some s') : Inv s' := by
  unfold botDraw at h
  split at h
  case isFalse => exact absurd h (by simp)
  case isTrue hguard =>
  simp only [Bool.and_eq_true, Bool.or_eq_true, beq_iff_eq] at hguard
  have hph : s.phase = .PLAYER_DRAW ∨ s.phase = .PLAYER_TOSSING_DRAW :=
    hguard.2
  have hcur : (currentPlayer s).hand.length ≤ 2 := by
    rcases hph with hph | hph
    · exact (handSizes_draw hph hinv.hands).2
    · have := (handSizes_tossing hph hinv.hands).2
      omega
  have hothers : othersHandsOk s.players s.currentPlayerIndex := by
    rcases hph with hph | hph
    · exact (handSizes_draw hph hinv.hands).1
    · exact (handSizes_tossing hph hinv.hands).1
  dsimp only at h
  cases hdeck : s.deck with
  | nil =>
    rw [hdeck] at h
    dsimp only at h
    split at h
    case _ hrec => exact absurd h (by simp)
    case _ dtf odb hrec =>
      split at hrec
      case _ hlen =>
        split at hrec
        case _ => exact absurd hrec (by simp)
        case _ topCard hlast =>
          injection hrec with hrec
          injection hrec with hA hB
          subst hA
          subst hB
          cases hsh : shuffleDeck r s.openDeck.dropLast with
          | nil =>
            rw [hsh] at h
            exact absurd h (by simp)
          | cons drawn deckRest =>
            rw [hsh] at h
            dsimp only at h
            injection h with h
            subst h
            refine stepEnd_inv hinv
              (fun pl => { pl with hand := pl.hand ++ [drawn] })
              drawn deckRest
              ([topCard] ++ s.pendingToss ++ pendingDiscardList s)
              s.turnLog (fun q => rfl) rfl hcur hothers ?_
            have ho : (↑s.openDeck : Multiset CardData) =
                ↑s.openDeck.dropLast + ↑[topCard] := by
              rw [← coe_append, getLast?_dropLast_append hlast]
            have hdl2 : (↑s.openDeck.dropLast : Multiset CardData) =
                ↑[drawn] + ↑deckRest := by
              have hsp : (↑(shuffleDeck r s.openDeck.dropLast) :
                  Multiset CardData) = ↑s.openDeck.dropLast :=
                Multiset.coe_eq_coe.mpr (shuffleDeck_perm r _)
              rw [← hsp, hsh]
              exact coe_append [drawn] deckRest
            rw [hdeck]
            simp only [coe_append, Multiset.coe_nil]
            rw [ho, hdl2]
            abel
      case _ hlen =>
        exact absurd hrec (by simp)
  | cons drawn deckRest =>
    rw [hdeck] at h
    dsimp only at h
    injection h with h
    subst h
    refine stepEnd_inv hinv
      (fun pl => { pl with hand := pl.hand ++ [drawn] })
      drawn deckRest
      (s.openDeck ++ s.pendingToss ++ pendingDiscardList s)
      s.turnLog (fun q => rfl) rfl hcur hothers ?_
    have hd : (↑s.deck : Multiset CardData) = ↑[drawn] + ↑deckRest := by
      rw [hdeck]
      exact coe_append [drawn] deckRest
    simp only [coe_append]
    rw [hd]
    abel

theorem submitNextRound_inv {r : Nat → Nat} {j : Nat} {ctx : LocalCtx}
    {s s' : GameState} (hinv : Inv s)
    (h : submitNextRound r j ctx s = some s') : Inv s' := by
  unfold submitNextRound at h
  dsimp only at h
  split at h
  case isFalse => exact absurd h (by simp)
  case isTrue =>
  unfold nextRound at h
  split at h
  · exact absurd h (by simp)
  · injection h with h
    subst h
    exact startRound_inv_existing r j (s.roundNumber + 1) 0
      ctx.selectedTotalRounds s.players s.gameMode [] s
      hinv.roster hinv.nonempty hinv.size10

/-- Every reachable state satisfies the inductive invariant: each accepted
submission and each bot effect step preserves it, and every round start
establishes it. -/
theorem reachable_inv {s : GameState} (h : Reachable s) : Inv s := by
  induction h with
  | start r j roundNum ps mode count names rounds s0 hro hne h10 =>
    exact startRound_inv_existing r j roundNum count rounds ps mode names s0
      hro hne h10
  | startFresh r j mode count names rounds s0 hmode hcount =>
    exact startRound_inv_fresh r j count rounds mode names s0 hmode hcount
  | toss ctx s s' _ hstep ih => exact submitToss_inv ih hstep
  | dis ctx s s' _ hstep ih => exact submitDiscard_inv ih hstep
  | draw r ctx src s s' _ hstep ih => exact submitDraw_inv ih hstep
  | showStep ctx s s' _ hstep ih => exact submitShow_inv ih hstep
  | botTS s s' _ hstep ih => exact botTurnStart_inv ih hstep
  | botDrawStep r s s' _ hstep ih => exact botDraw_inv ih hstep
  | advance r j ctx s s' _ hstep ih => exact submitNextRound_inv ih hstep

/-- A blank pre-game state (the initial `useState` value of `App.tsx`,
before any round starts). -/
def blankState : GameState :=
  { gameMode := none, deck := [], openDeck := [], players := [],
    currentPlayerIndex := 0, roundJoker := none, roundNumber := 1,
    totalRounds := 5, phase := .SETUP, turnLog := [],
    lastDiscardedId := none, tossedThisTurn := false,
    pendingDiscard := none, pendingToss := [] }

/-- A concrete first round of a single-player game, for witnesses. -/
def wStart : GameState :=
  startRound (fun _ => 0) 0 1 none (some .SINGLE_PLAYER) 0 [] 5 blankState

/-- C2: card conservation — in every reachable state, the draw pile, the
discard pile, all hands and the two pending buffers together hold exactly
the 52 cards of the deck. -/
theorem card_conservation {s : GameState} (h : Reachable s) :
    s.deck.length + s.openDeck.length +
      (s.players.map (fun p => p.hand.length)).sum +
      s.pendingToss.length + (pendingDiscardList s).length = 52 := by
  have hb := (reachable_inv h).bag.length_eq
  rw [standardDeck_length] at hb
  unfold cardsList at hb
  simp only [List.length_append] at hb
  have hh : (handsList s.players).length =
      (s.players.map (fun p => p.hand.length)).sum := by
    unfold handsList
    rw [List.length_flatten, List.map_map]
    rfl
  omega

/-- Witness for C2: the component sizes of a freshly started single-player
round sum to 52. -/
theorem card_conservation_witness :
    wStart.deck.length + wStart.openDeck.length +
      (wStart.players.map (fun p => p.hand.length)).sum +
      wStart.pendingToss.length + (pendingDiscardList wStart).length = 52 :=
  card_conservation (Reachable.startFresh (fun _ => 0) 0 .SINGLE_PLAYER 0 []
    5 blankState (Or.inl rfl) (by decide))

/-- The randomness oracle of the C3 trace: every Fisher–Yates step swaps an
index with itself (a fixed point) except step 13, which swaps positions 13
and 1 and so brings the ace of hearts next to the ace of spades. -/
def rEx : Nat → Nat := fun i => if i = 13 then 1 else i

/-- The C3 trace's UI context: the local player with the two aces
selected. -/
def cexCtx : LocalCtx :=
  { myOnlineId := none, isTransitioning := false,
    selected := ["card-0-A-S", "card-13-A-H"], selectedTotalRounds := 5 }

/-- The C3 trace, round start: a two-player local game; seat 0 is dealt
`[A♠, A♥, 3♠]` and the round joker is the king of clubs. -/
def cexS1 : GameState :=
  startRound rEx 51 1 none (some .MULTIPLAYER) 2 [] 5 blankState

/-- The C3 trace after seat 0 tosses the pair of aces: its hand is `[3♠]`. -/
def cexS2 : GameState := (submitToss cexCtx cexS1).getD cexS1

/-- The C3 trace after seat 0 completes the turn by drawing from the deck:
back at `PLAYER_TURN_START` with a 2-card hand. -/
def cexS3 : GameState := (submitDraw rEx cexCtx .DECK cexS2).getD cexS2

/-- Counterexample for C3 as stated: a reachable `PLAYER_TURN_START` state
in which seat 0 holds 2 cards, not 3 — a toss removes two cards but the
turn's draw returns only one, so the hand shrinks permanently. -/
theorem hand_exactly_three_counterexample :
    Reachable cexS3 ∧ cexS3.phase = .PLAYER_TURN_START ∧
    cexS3.players.headD dummyPlayer ∈ cexS3.players ∧
    (cexS3.players.headD dummyPlayer).hand.length = 2 := by
  have h1 : Reachable cexS1 :=
    Reachable.startFresh rEx 51 .MULTIPLAYER 2 [] 5 blankState
      (Or.inr rfl) (by decide)
  have e2 : submitToss cexCtx cexS1 = some cexS2 := by decide
  have h2 : Reachable cexS2 := Reachable.toss cexCtx cexS1 cexS2 h1 e2
  have e3 : submitDraw rEx cexCtx .DECK cexS2 = some cexS3 := by decide
  have h3 : Reachable cexS3 :=
    Reachable.draw rEx cexCtx .DECK cexS2 cexS3 h2 e3
  exact ⟨h3, by decide, by decide, by decide⟩

/-- C3 (amended): in every reachable state whose phase is
`PLAYER_TURN_START`, every player's hand holds between 1 and 3 cards (not
always exactly 3: each toss turn shrinks the hand by one for the rest of
the round). -/
theorem hand_size_bounds {s : GameState} (h : Reachable s)
    (hph : s.phase = .PLAYER_TURN_START) {p : Player}
    (hp : p ∈ s.players) : 1 ≤ p.hand.length ∧ p.hand.length ≤ 3 :=
  (handSizes_turnStart hph (reachable_inv h).hands).1 p hp

/-- Witness for C3 (amended) at a freshly started single-player round:
seat 0's hand (three cards) is within the bounds. -/
theorem hand_size_bounds_witness :
    wStart.phase = .PLAYER_TURN_START ∧
    wStart.players.headD dummyPlayer ∈ wStart.players ∧
    (1 ≤ (wStart.players.headD dummyPlayer).hand.length ∧
      (wStart.players.headD dummyPlayer).hand.length ≤ 3) :=
  ⟨rfl, by decide,
    hand_size_bounds (Reachable.startFresh (fun _ => 0) 0 .SINGLE_PLAYER 0 []
      5 blankState (Or.inl rfl) (by decide)) rfl (by decide)⟩

end TriStack
